import Mathlib

/-!
# LogHarbor processor

A shallow embedding of `src/log-processor/main.go`: the processor state
(`LogProcessor`), its bounded channels, the per-connection sessions
(`WebSocketClient`) and the operations that act on them.

Conventions of the embedding

* A Go channel of byte slices is a `Chan`: the buffered payloads in FIFO
  order, the capacity given to `make`, and whether `close` was called.
  Sending on a closed channel and closing a closed channel are runtime
  panics in Go, so the operations that may do so return `Except Fault`.
* `*WebSocketClient` pointers are natural numbers; `LogProcessor.heap`
  gives the object behind each pointer and `LogProcessor.clients` is the
  key set of the Go map `lp.clients`, in the order a `range` visits it.
* Effects that have no state of their own in the source (log lines, lock
  operations, accesses to the map, closures) are appended to
  `LogProcessor.trace` in program order.
* The external libraries (Kafka consumer, Elasticsearch client, websocket
  transport, JSON codec, clock) are not part of the repository; what they
  answer is an argument of the operation that asks them.
-/

namespace LogHarbor

/-- A raw payload, Go's `[]byte`. -/
abbrev Bytes := List Nat

/-- The record `LogEntry` of the source. -/
structure LogEntry where
  Level : String
  Message : String
  Timestamp : String
  Service : String
  UserID : String
  RequestID : String
  IP : String
  Duration : Int
deriving DecidableEq, Repr

/-- The ways a channel operation fails to return: the two runtime panics,
and a blocking send that no receiver will ever release. -/
inductive Fault where
  | sendOnClosedChannel
  | closeOfClosedChannel
  | blockedOnSend
deriving DecidableEq, Repr

/-! ## Channels -/

/-- A buffered Go channel `chan []byte`. -/
structure Chan where
  buf : List Bytes
  cap : Nat
  closed : Bool
deriving DecidableEq, Repr

/-- The channel built by `make(chan []byte, cap)`. -/
def makeChan (cap : Nat) : Chan :=
  { buf := [], cap := cap, closed := false }

/-- The non-blocking send `select { case ch <- m: default: }`:
`some ch'` when the send case ran, `none` when the default case ran. -/
def Chan.trySend (ch : Chan) (m : Bytes) : Except Fault (Option Chan) :=
  if ch.closed then .error .sendOnClosedChannel
  else if ch.buf.length < ch.cap then .ok (some { ch with buf := ch.buf ++ [m] })
  else .ok none

/-- The blocking send `ch <- m`, in a state where no receiver runs. -/
def Chan.send (ch : Chan) (m : Bytes) : Except Fault Chan :=
  if ch.closed then .error .sendOnClosedChannel
  else if ch.buf.length < ch.cap then .ok { ch with buf := ch.buf ++ [m] }
  else .error .blockedOnSend

/-- The statement `close(ch)`. -/
def Chan.close (ch : Chan) : Except Fault Chan :=
  if ch.closed then .error .closeOfClosedChannel
  else .ok { ch with closed := true }

/-- The receive `m, ok := <-ch` when it can proceed: `some (some m, _)` for a
buffered payload, `some (none, _)` for a closed and drained channel, and
`none` when the receive would block. -/
def Chan.recv (ch : Chan) : Option (Option Bytes × Chan) :=
  match ch.buf with
  | m :: rest => some (some m, { ch with buf := rest })
  | [] => if ch.closed then some (none, ch) else none

/-! ## Transport connections and sessions -/

/-- A message written to the websocket transport. -/
inductive Frame where
  | text (payload : Bytes)
  | ping
  | close
deriving DecidableEq, Repr

/-- The part of a `*websocket.Conn` the processor depends on: whether
`Close` was called, whether the transport has failed (every later write
then returns an error), the messages written so far, the read limit and
the read deadline. -/
structure Conn where
  closed : Bool
  broken : Bool
  out : List Frame
  readLimit : Option Nat
  readDeadline : Option Nat
deriving DecidableEq, Repr

/-- A connection as returned by a successful `upgrader.Upgrade`. -/
def Conn.fresh : Conn :=
  { closed := false, broken := false, out := [], readLimit := none, readDeadline := none }

/-- A call of `conn.Close()`; its error result is ignored everywhere. -/
def Conn.close (k : Conn) : Conn :=
  { k with closed := true }

/-- Whether a write on the connection succeeds. -/
def Conn.writable (k : Conn) : Bool :=
  !k.closed && !k.broken

/-- State of a goroutine started for a session. -/
inductive Task where
  | notStarted
  | running
  | exited
deriving DecidableEq, Repr

/-- The record `WebSocketClient` of the source (`conn`, `send`; the
`processor` back pointer is the one processor of the embedding), with the
state of its two goroutines. -/
structure WebSocketClient where
  conn : Conn
  send : Chan
  writer : Task
  reader : Task
deriving DecidableEq, Repr

/-! ## Processor state -/

/-- A line written with `log.Printf` or `log.Println`. -/
inductive LogLine where
  | shuttingDown
  | shutdownComplete
  | consumerStarting
  | consumerStopped
  | consumerError
  | consumed (value : Bytes)
  | broadcastFull
  | parseError
  | indexError
  | indexed (message : String)
  | clientBufferFull
  | upgradeError
  | clientConnected (count : Nat)
  | clientDisconnected (count : Nat)
  | readError
deriving DecidableEq, Repr

/-- An effect recorded in program order. -/
inductive Event where
  | log (line : LogLine)
  | lock
  | unlock
  | rlock
  | runlock
  | mapInsert (c : Nat)
  | mapDelete (c : Nat)
  | mapLen
  | mapRange
  | mapReset
  | cancel
  | consumerClose
  | connClose (c : Nat)
  | sendClose (c : Nat)
  | broadcastClose
deriving DecidableEq, Repr

/-- The record `Config`. -/
structure Config where
  KafkaBootstrapServers : String
  KafkaTopic : String
  KafkaGroupID : String
  ElasticsearchURL : String
  ElasticsearchIndex : String
  WebSocketPort : String
  HealthPort : String
deriving DecidableEq, Repr

/-- The function `getEnv`, over the process environment `env` (`os.Getenv`). -/
def getEnv (env : String → String) (key defaultValue : String) : String :=
  if env key ≠ "" then env key else defaultValue

/-- The function `NewConfig`. -/
def NewConfig (env : String → String) : Config :=
  { KafkaBootstrapServers := getEnv env "KAFKA_BOOTSTRAP_SERVERS" "localhost:9092"
    KafkaTopic := getEnv env "KAFKA_TOPIC" "logs"
    KafkaGroupID := getEnv env "KAFKA_GROUP_ID" "log-processor-group"
    ElasticsearchURL := getEnv env "ELASTICSEARCH_URL" "http://localhost:9200"
    ElasticsearchIndex := getEnv env "ELASTICSEARCH_INDEX" "logs"
    WebSocketPort := getEnv env "WS_PORT" "8080"
    HealthPort := getEnv env "HEALTH_PORT" "8081" }

/-- The configuration of a process started with an empty environment. -/
def demoConfig : Config :=
  NewConfig (fun _ => "")

/-- The document handed to `BodyJson`: the map with the keys `@timestamp`
and `log_entry`. -/
structure IndexData where
  timestamp : String
  log_entry : LogEntry
deriving DecidableEq, Repr

/-- One call `esClient.Index().Index(index).BodyJson(body).Do(ctx)`. -/
structure IndexCall where
  index : String
  body : IndexData
deriving DecidableEq, Repr

/-- The Kafka consumer handle. -/
structure Consumer where
  closed : Bool
deriving DecidableEq, Repr

/-- The record `LogProcessor`. `clients` and `heap` stand for the map
`clients`, `cancelled` for the context `ctx`; `indexTasks` holds the payloads
of the goroutines started with `go lp.indexToElasticsearch`, and `esCalls`
the calls received by `esClient`. -/
structure LogProcessor where
  esCalls : List IndexCall
  consumer : Option Consumer
  clients : List Nat
  heap : Nat → WebSocketClient
  broadcast : Chan
  cancelled : Bool
  config : Config
  indexTasks : List Bytes
  trace : List Event

/-- Append an effect to the trace. -/
def LogProcessor.emit (lp : LogProcessor) (e : Event) : LogProcessor :=
  { lp with trace := lp.trace ++ [e] }

/-- Overwrite the object behind the pointer `c`. -/
def LogProcessor.setClient (lp : LogProcessor) (c : Nat) (v : WebSocketClient) : LogProcessor :=
  { lp with heap := Function.update lp.heap c v }

/-- A session object that nothing has touched yet. -/
def WebSocketClient.blank : WebSocketClient :=
  { conn := Conn.fresh, send := makeChan 256, writer := .notStarted, reader := .notStarted }

/-- The processor returned by a successful `NewLogProcessor`. -/
def NewLogProcessor (config : Config) : LogProcessor :=
  { esCalls := []
    consumer := some { closed := false }
    clients := []
    heap := fun _ => WebSocketClient.blank
    broadcast := makeChan 1000
    cancelled := false
    config := config
    indexTasks := []
    trace := [] }

/-! ## Broadcaster -/

/-- The body of the `range` loop of `broadcastToClients` for the session `c`:
a non-blocking send on `client.send`; in the default case the line is
logged, the connection closed and the key deleted from the map. -/
def broadcastVisit (message : Bytes) (lp : LogProcessor) (c : Nat) : Except Fault LogProcessor :=
  match (lp.heap c).send.trySend message with
  | .error p => .error p
  | .ok (some ch) => .ok (lp.setClient c { lp.heap c with send := ch })
  | .ok none =>
    let lp1 := lp.emit (.log .clientBufferFull)
    let lp2 := (lp1.setClient c { lp1.heap c with conn := (lp1.heap c).conn.close }).emit (.connClose c)
    .ok ({ lp2 with clients := lp2.clients.filter (fun d => d != c) }.emit (.mapDelete c))

/-- The function `broadcastToClients`: take the read lock, visit every key of
the map, release the read lock. Only the key being visited is ever deleted
during the loop, so the keys visited are those present at its start. -/
def broadcastToClients (message : Bytes) (lp : LogProcessor) : Except Fault LogProcessor := do
  let lp1 := (lp.emit .rlock).emit .mapRange
  let lp2 ← lp.clients.foldlM (broadcastVisit message) lp1
  pure (lp2.emit .runlock)

/-- Successive calls of `broadcastToClients`, one per payload, as made by
`handleBroadcasts` for the payloads it dequeues. -/
def broadcastAll (messages : List Bytes) (lp : LogProcessor) : Except Fault LogProcessor :=
  messages.foldlM (fun s m => broadcastToClients m s) lp

/-! ## Shutdown -/

/-- The body of the `range` loop of `Shutdown` for the session `c`:
`client.conn.Close()` and then `close(client.send)`. -/
def shutdownVisit (lp : LogProcessor) (c : Nat) : Except Fault LogProcessor :=
  let lp1 := (lp.setClient c { lp.heap c with conn := (lp.heap c).conn.close }).emit (.connClose c)
  match (lp1.heap c).send.close with
  | .error p => .error p
  | .ok ch => .ok ((lp1.setClient c { lp1.heap c with send := ch }).emit (.sendClose c))

/-- The function `Shutdown`. -/
def Shutdown (lp : LogProcessor) : Except Fault LogProcessor := do
  let lp1 := lp.emit (.log .shuttingDown)
  let lp2 := { lp1 with cancelled := true }.emit .cancel
  let lp3 := match lp2.consumer with
    | some _ => { lp2 with consumer := some { closed := true } }.emit .consumerClose
    | none => lp2
  let lp4 := (lp3.emit .lock).emit .mapRange
  let lp5 ← lp4.clients.foldlM shutdownVisit lp4
  let lp6 := ({ lp5 with clients := [] }.emit .mapReset).emit .unlock
  let ch ← lp6.broadcast.close
  let lp7 := { lp6 with broadcast := ch }.emit .broadcastClose
  pure (lp7.emit (.log .shutdownComplete))

/-! ## Ingest loop and indexer -/

/-- What `lp.consumer.ReadMessage(100 * time.Millisecond)` answers. -/
inductive ReadResult where
  | timedOut
  | failed
  | message (value : Bytes)
deriving DecidableEq, Repr

/-- One iteration of the loop of `consumeAndIndex`, given the answer of the
read it makes. The flag of the result says whether the function returned. -/
def consumeIter (r : ReadResult) (lp : LogProcessor) : Except Fault (LogProcessor × Bool) :=
  if lp.cancelled then .ok (lp.emit (.log .consumerStopped), true)
  else
    match r with
    | .timedOut => .ok (lp, false)
    | .failed => .ok (lp.emit (.log .consumerError), false)
    | .message value =>
      let lp1 := lp.emit (.log (.consumed value))
      let lp2 := { lp1 with indexTasks := lp1.indexTasks ++ [value] }
      match lp2.broadcast.trySend value with
      | .error p => .error p
      | .ok (some ch) => .ok ({ lp2 with broadcast := ch }, false)
      | .ok none => .ok (lp2.emit (.log .broadcastFull), false)

/-- The loop of `consumeAndIndex` over the answers of its successive reads;
the flag says whether the function returned before the answers ran out. -/
def consumeLoop : List ReadResult → LogProcessor → Except Fault (LogProcessor × Bool)
  | [], lp => .ok (lp, false)
  | r :: rs, lp =>
    match consumeIter r lp with
    | .error p => .error p
    | .ok (lp1, true) => .ok (lp1, true)
    | .ok (lp1, false) => consumeLoop rs lp1

/-- The function `consumeAndIndex`. -/
def consumeAndIndex (rs : List ReadResult) (lp : LogProcessor) : Except Fault (LogProcessor × Bool) :=
  consumeLoop rs (lp.emit (.log .consumerStarting))

/-- The library functions the processor calls: `json.Unmarshal` into a
`LogEntry`, `json.Marshal` of a `LogEntry`, and `Format(time.RFC3339)`. -/
structure Lib where
  unmarshal : Bytes → Option LogEntry
  marshal : LogEntry → Bytes
  formatRFC3339 : Nat → String

/-- The function `indexToElasticsearch`, given the clock reading `now` and
whether the call of the index client succeeds. -/
def indexToElasticsearch (lib : Lib) (now : Nat) (esOk : Bool) (data : Bytes)
    (lp : LogProcessor) : LogProcessor :=
  match lib.unmarshal data with
  | none => lp.emit (.log .parseError)
  | some logEntry =>
    let indexData : IndexData := { timestamp := lib.formatRFC3339 now, log_entry := logEntry }
    let call : IndexCall := { index := lp.config.ElasticsearchIndex, body := indexData }
    let lp1 : LogProcessor := { lp with esCalls := lp.esCalls ++ [call] }
    if esOk then lp1.emit (.log (.indexed logEntry.Message))
    else lp1.emit (.log .indexError)

/-- One iteration of the loop of `handleBroadcasts`. When both cases of the
`select` are ready, `pickDone` says whether the `ctx.Done()` case runs. The
flag of the result says whether the function returned. -/
def handleBroadcastsIter (pickDone : Bool) (lp : LogProcessor) : Except Fault (LogProcessor × Bool) :=
  match lp.broadcast.recv with
  | none => .ok (lp, lp.cancelled)
  | some (none, ch) =>
    if lp.cancelled && pickDone then .ok (lp, true)
    else .ok (({ lp with broadcast := ch } : LogProcessor), true)
  | some (some msg, ch) =>
    if lp.cancelled && pickDone then .ok (lp, true)
    else
      match broadcastToClients msg { lp with broadcast := ch } with
      | .error p => .error p
      | .ok lp1 => .ok (lp1, false)

/-! ## Session lifecycle -/

/-- The first half of `handleWebSocketConnection` after a successful
upgrade: allocate the session at the fresh pointer `c`, and insert it in
the map under the write lock. -/
def registerClient (c : Nat) (lp : LogProcessor) : LogProcessor :=
  let lp0 := lp.setClient c
    { conn := Conn.fresh, send := makeChan 256, writer := .notStarted, reader := .notStarted }
  let lp1 := lp0.emit .lock
  let lp2 := { lp1 with
    clients := if c ∈ lp1.clients then lp1.clients else lp1.clients ++ [c] }.emit (.mapInsert c)
  let clientCount := lp2.clients.length
  let lp3 := (lp2.emit .mapLen).emit .unlock
  lp3.emit (.log (.clientConnected clientCount))

/-- The welcome entry built by `handleWebSocketConnection`. -/
def welcomeMsg (lib : Lib) (now : Nat) : LogEntry :=
  { Level := "INFO"
    Message := "Connected to LogHarbor WebSocket"
    Timestamp := lib.formatRFC3339 now
    Service := "log-processor"
    UserID := ""
    RequestID := ""
    IP := ""
    Duration := 0 }

/-- The statement `client.send <- welcomeJSON`. -/
def sendWelcome (lib : Lib) (now : Nat) (c : Nat) (lp : LogProcessor) : Except Fault LogProcessor :=
  match (lp.heap c).send.send (lib.marshal (welcomeMsg lib now)) with
  | .error p => .error p
  | .ok ch => .ok (lp.setClient c { lp.heap c with send := ch })

/-- The statements `go client.writePump()` and `go client.readPump()`. -/
def startPumps (c : Nat) (lp : LogProcessor) : LogProcessor :=
  lp.setClient c { lp.heap c with writer := .running, reader := .running }

/-- The function `handleWebSocketConnection`; `upgraded` says whether
`upgrader.Upgrade` succeeded and `c` is the pointer of the new session. -/
def handleWebSocketConnection (lib : Lib) (now : Nat) (upgraded : Bool) (c : Nat)
    (lp : LogProcessor) : Except Fault LogProcessor :=
  if !upgraded then .ok (lp.emit (.log .upgradeError))
  else do
    let lp1 := registerClient c lp
    let lp2 ← sendWelcome lib now c lp1
    pure (startPumps c lp2)

/-- What wakes the `select` of `writePump`, or happens to its transport. -/
inductive WriterEvent where
  | recv
  | tick
  | netDown
deriving DecidableEq, Repr

/-- The deferred function of `writePump`: `ticker.Stop()` and `client.conn.Close()`. -/
def writePumpExit (cl : WebSocketClient) : WebSocketClient :=
  { cl with conn := cl.conn.close, writer := .exited }

/-- One iteration of the loop of `writePump`. On `recv` the case
`<-client.send` runs if the channel is ready, on `tick` the case
`<-ticker.C`; `netDown` is the transport failing under the writer. -/
def writePumpIter (w : WriterEvent) (cl : WebSocketClient) : WebSocketClient :=
  match w with
  | .netDown => { cl with conn := { cl.conn with broken := true } }
  | .tick =>
    if cl.conn.writable then { cl with conn := { cl.conn with out := cl.conn.out ++ [.ping] } }
    else writePumpExit cl
  | .recv =>
    match cl.send.recv with
    | none => cl
    | some (none, ch) =>
      let k := if cl.conn.writable then { cl.conn with out := cl.conn.out ++ [.close] } else cl.conn
      writePumpExit { cl with conn := k, send := ch }
    | some (some message, ch) =>
      if cl.conn.writable then
        { cl with conn := { cl.conn with out := cl.conn.out ++ [.text message] }, send := ch }
      else writePumpExit { cl with send := ch }

/-- The function `writePump` over the events that reach it; it stops at the
first iteration that returns. -/
def writePump : List WriterEvent → WebSocketClient → WebSocketClient
  | [], cl => cl
  | w :: ws, cl =>
    if cl.writer = .exited then cl
    else writePump ws (writePumpIter w cl)

/-- The deferred function of `readPump`: delete the session from the map
under the write lock, log the count, close the connection. -/
def readPumpCleanup (c : Nat) (lp : LogProcessor) : LogProcessor :=
  let lp1 := lp.emit .lock
  let lp2 := { lp1 with clients := lp1.clients.filter (fun d => d != c) }.emit (.mapDelete c)
  let clientCount := lp2.clients.length
  let lp3 := (lp2.emit .mapLen).emit .unlock
  let lp4 := lp3.emit (.log (.clientDisconnected clientCount))
  (lp4.setClient c
    { lp4.heap c with conn := (lp4.heap c).conn.close, reader := .exited }).emit (.connClose c)

/-- One second, as a `time.Duration`. -/
def Second : Nat := 1000000000

/-- What arrives on the transport of a session at the clock reading `t`: a
data message of `size` bytes, a pong frame, or a receive error (`unexpected`
says whether `websocket.IsUnexpectedCloseError` holds of it). -/
inductive Incoming where
  | data (t : Nat) (size : Nat)
  | pong (t : Nat)
  | fault (t : Nat) (unexpected : Bool)
deriving DecidableEq, Repr

/-- The clock reading of an arrival. -/
def Incoming.time : Incoming → Nat
  | .data t _ => t
  | .pong t => t
  | .fault t _ => t

/-- Whether the read deadline has passed at the clock reading `t`. -/
def Conn.expired (k : Conn) (t : Nat) : Bool :=
  match k.readDeadline with
  | some d => decide (d < t)
  | none => false

/-- Whether a message of `size` bytes exceeds the read limit. -/
def Conn.tooBig (k : Conn) (size : Nat) : Bool :=
  match k.readLimit with
  | some n => decide (n < size)
  | none => false

/-- The pong handler installed by `readPump`. -/
def pongHandler (t : Nat) (k : Conn) : Conn :=
  { k with readDeadline := some (t + 60 * Second) }

/-- The effect of one arrival on the reader blocked in
`client.conn.ReadMessage()`. The second component is `none` when the
receive succeeded (the reader keeps reading), and `some logged` when
`ReadMessage` returned an error and the loop broke. -/
def readRecv (e : Incoming) (k : Conn) : Conn × Option Bool :=
  if k.closed then (k, some false)
  else if k.expired e.time then (k, some false)
  else
    match e with
    | .pong t => (pongHandler t k, none)
    | .data _ size => if k.tooBig size then (k, some false) else (k, none)
    | .fault _ unexpected => (k, some unexpected)

/-- The loop of `readPump` over the arrivals on the transport. -/
def readLoop : List Incoming → Conn → Conn × Option Bool
  | [], k => if k.closed then (k, some false) else (k, none)
  | e :: rest, k =>
    match readRecv e k with
    | (k1, none) => readLoop rest k1
    | (k1, some logged) => (k1, some logged)

/-- The function `readPump`, started at the clock reading `start`. -/
def readPump (start : Nat) (events : List Incoming) (c : Nat) (lp : LogProcessor) : LogProcessor :=
  let cl := lp.heap c
  let k0 := { cl.conn with readLimit := some 512, readDeadline := some (start + 60 * Second) }
  match readLoop events k0 with
  | (k, none) => lp.setClient c { cl with conn := k }
  | (k, some logged) =>
    let lp1 := lp.setClient c { cl with conn := k }
    let lp2 := if logged then lp1.emit (.log .readError) else lp1
    readPumpCleanup c lp2

/-! ## Health endpoint -/

/-- The JSON object served on `/health`. -/
structure HealthStatus where
  status : String
  timestamp : String
  service : String
  version : String
  clients : Nat
deriving DecidableEq, Repr

/-- The handler registered by `startHealthServer`. -/
def healthHandler (lib : Lib) (now : Nat) (lp : LogProcessor) : LogProcessor × HealthStatus :=
  (lp.emit .mapLen,
    { status := "healthy"
      timestamp := lib.formatRFC3339 now
      service := "log-processor"
      version := "1.0.0"
      clients := lp.clients.length })

/-- Well-formed session set: the keys are distinct, and every registered
session has an open outbound buffer of capacity 256. -/
def SessionsOpen (lp : LogProcessor) : Prop :=
  lp.clients.Nodup ∧ ∀ c ∈ lp.clients, (lp.heap c).send.closed = false ∧ (lp.heap c).send.cap = 256

/-- The session object `cl` after the loop body of `broadcastToClients` has
run for it with the payload `m`. -/
def visited (m : Bytes) (cl : WebSocketClient) : WebSocketClient :=
  if cl.send.buf.length < cl.send.cap then
    { cl with send := { cl.send with buf := cl.send.buf ++ [m] } }
  else { cl with conn := cl.conn.close }

/-- A processor with two registered sessions: session `0` with an empty
buffer and session `1` with a buffer holding 256 payloads. -/
def demoProcessor : LogProcessor :=
  { NewLogProcessor demoConfig with
    clients := [0, 1]
    heap := fun c =>
      if c = 1 then { WebSocketClient.blank with send := { makeChan 256 with buf := List.replicate 256 [] } }
      else WebSocketClient.blank }

/-- The closures `Shutdown` performs for the sessions `cs`, in order. -/
def shutdownEvents : List Nat → List Event
  | [] => []
  | c :: cs => .connClose c :: .sendClose c :: shutdownEvents cs

/-- The session object `cl` after the loop body of `Shutdown` has run for it. -/
def shutDown (cl : WebSocketClient) : WebSocketClient :=
  { cl with conn := cl.conn.close, send := { cl.send with closed := true } }

/-- The connection of a session as `readPump` sets it up at the clock
reading `start`, before its first `ReadMessage`. -/
def readerConn (start : Nat) (k : Conn) : Conn :=
  { k with readLimit := some 512, readDeadline := some (start + 60 * Second) }

/-- A codec for the demonstrations: the empty payload does not parse, any
other payload parses into an entry whose message is `"m"`. -/
def demoLib : Lib :=
  { unmarshal := fun data =>
      if data = [] then none
      else some { Level := "ERROR", Message := "m", Timestamp := "", Service := "log-agent",
                  UserID := "", RequestID := "", IP := "", Duration := 0 }
    marshal := fun _ => [0]
    formatRFC3339 := fun t => toString t }

/-- The frames of a transport log other than pings. -/
def nonPing (fs : List Frame) : List Frame :=
  fs.filter (fun f => f != .ping)

/-- The payloads of the text frames of a transport log, in order. -/
def payloadsOf : List Frame → List Bytes
  | [] => []
  | .text p :: fs => p :: payloadsOf fs
  | _ :: fs => payloadsOf fs

/-! ## The concurrent pipeline -/

/-- The processor together with the control state of its ingest and
broadcaster goroutines. `pending` is set while the broadcaster is inside
`broadcastToClients`: the payload being fanned out and the keys the `range`
loop has still to visit. `consumed` lists the values of the messages read by
`consumeAndIndex`, in the order of the reads. -/
structure System where
  lp : LogProcessor
  pending : Option (Bytes × List Nat)
  ingestDone : Bool
  broadcasterDone : Bool
  consumed : List Bytes

/-- A step of one goroutine of the pipeline: an iteration of the loop of
`consumeAndIndex`; the `select` of `handleBroadcasts` with the entry into
`broadcastToClients`; one turn of the `range` loop of `broadcastToClients`
(or its return when no key is left); an iteration of `writePump` for a
session, or an event on its transport. -/
inductive Step where
  | ingest (r : ReadResult)
  | dequeue (pickDone : Bool)
  | visit
  | writer (c : Nat) (w : WriterEvent)
deriving DecidableEq, Repr

/-- The values read by an iteration of the ingest loop. -/
def readValue (lp : LogProcessor) : ReadResult → List Bytes
  | .message value => if lp.cancelled then [] else [value]
  | _ => []

/-- The effect of a step; goroutines that have returned do nothing. -/
def System.step (s : System) : Step → Except Fault System
  | .ingest r =>
    if s.ingestDone then .ok s
    else
      match consumeIter r s.lp with
      | .error p => .error p
      | .ok (lp1, done) =>
        .ok { s with lp := lp1, ingestDone := done, consumed := s.consumed ++ readValue s.lp r }
  | .dequeue pickDone =>
    if s.broadcasterDone then .ok s
    else
      match s.pending with
      | some _ => .ok s
      | none =>
        match s.lp.broadcast.recv with
        | none => .ok { s with broadcasterDone := s.lp.cancelled }
        | some (none, ch) =>
          if s.lp.cancelled && pickDone then .ok { s with broadcasterDone := true }
          else .ok { s with lp := { s.lp with broadcast := ch }, broadcasterDone := true }
        | some (some msg, ch) =>
          if s.lp.cancelled && pickDone then .ok { s with broadcasterDone := true }
          else
            .ok { s with
              lp := (({ s.lp with broadcast := ch } : LogProcessor).emit .rlock).emit .mapRange
              pending := some (msg, s.lp.clients) }
  | .visit =>
    match s.pending with
    | none => .ok s
    | some (_, []) => .ok { s with lp := s.lp.emit .runlock, pending := none }
    | some (msg, c :: rest) =>
      match broadcastVisit msg s.lp c with
      | .error p => .error p
      | .ok lp1 => .ok { s with lp := lp1, pending := some (msg, rest) }
  | .writer c w =>
    if (s.lp.heap c).writer = .running then
      .ok { s with lp := s.lp.setClient c (writePumpIter w (s.lp.heap c)) }
    else .ok s

/-- A run of the pipeline: the steps of an interleaving, in order. -/
def System.run : List Step → System → Except Fault System
  | [], s => .ok s
  | st :: rest, s =>
    match s.step st with
    | .error p => .error p
    | .ok s1 => System.run rest s1

/-- The payload the broadcaster is fanning out, if any. -/
def System.current (s : System) : List Bytes :=
  match s.pending with
  | none => []
  | some (msg, _) => [msg]

/-- The keys the broadcaster has still to visit. -/
def System.pendingKeys (s : System) : List Nat :=
  match s.pending with
  | none => []
  | some (_, ks) => ks

/-- The invariant behind the ordering property, relative to what each
session had been sent or held in its buffer at the start (`base`). Channels
in use are open, keys are distinct, and there is a list `handled` of the
payloads dequeued by the broadcaster before the current one such that
`handled`, the current payload and the broadcast queue form a subsequence of
the consumed sequence, while what a session has been sent or still holds in
its buffer is a subsequence of `base` followed by `handled`, extended by the
current payload once the session has been visited. -/
def System.Inv (base : Nat → List Bytes) (s : System) : Prop :=
  s.lp.broadcast.closed = false ∧
  s.lp.clients.Nodup ∧
  (∀ c ∈ s.lp.clients, (s.lp.heap c).send.closed = false) ∧
  s.pendingKeys.Nodup ∧
  (∀ c ∈ s.pendingKeys, c ∈ s.lp.clients) ∧
  ∃ handled : List Bytes,
    (handled ++ s.current ++ s.lp.broadcast.buf).Sublist s.consumed ∧
    ∀ c, (payloadsOf (s.lp.heap c).conn.out ++ (s.lp.heap c).send.buf).Sublist
      (base c ++ (if c ∈ s.pendingKeys then handled else handled ++ s.current))

/-- What a session has been sent or holds in its buffer: for a session just
accepted, its welcome message. -/
def System.held (s : System) (c : Nat) : List Bytes :=
  payloadsOf (s.lp.heap c).conn.out ++ (s.lp.heap c).send.buf

/-- A pipeline at its start: no broadcast under way, nothing consumed yet
and the broadcast queue empty. -/
def System.Fresh (s : System) : Prop :=
  s.pending = none ∧ s.consumed = [] ∧ s.lp.broadcast.buf = []

/-- A pipeline at its start with one registered session, `0`, whose writer
runs and whose buffer holds the welcome message `[0]`. -/
def demoSystem : System :=
  { lp := { NewLogProcessor demoConfig with
      clients := [0]
      heap := fun _ =>
        { WebSocketClient.blank with send := { makeChan 256 with buf := [[0]] }, writer := .running } }
    pending := none
    ingestDone := false
    broadcasterDone := false
    consumed := [] }

/-- An interleaving for the demonstration: two messages are consumed, the
broadcaster fans out the first, the writer sends the welcome message and the
first, a third message is consumed, the broadcaster fans out the second, and
the writer sends it. -/
def demoSteps : List Step :=
  [.ingest (.message [1]), .ingest (.message [2]), .dequeue false, .visit, .visit,
   .writer 0 .recv, .writer 0 .recv, .ingest (.message [3]), .dequeue false, .visit,
   .writer 0 .tick, .visit, .writer 0 .recv]

/-- How the goroutine running an operation holds `lp.mutex`. -/
inductive Held where
  | free
  | shared
  | exclusive
deriving DecidableEq, Repr

/-- The lock discipline of the session set, checked along the effects of an
operation: an insertion, a deletion or a reset of the map needs the write
lock, a read of the map (its length, a `range` over it) needs the read lock
or the write lock. -/
def lockDiscipline : Held → List Event → Bool
  | _, [] => true
  | _, .lock :: es => lockDiscipline .exclusive es
  | _, .rlock :: es => lockDiscipline .shared es
  | _, .unlock :: es => lockDiscipline .free es
  | _, .runlock :: es => lockDiscipline .free es
  | h, .mapInsert _ :: es => decide (h = .exclusive) && lockDiscipline h es
  | h, .mapDelete _ :: es => decide (h = .exclusive) && lockDiscipline h es
  | h, .mapReset :: es => decide (h = .exclusive) && lockDiscipline h es
  | h, .mapLen :: es => decide (h ≠ .free) && lockDiscipline h es
  | h, .mapRange :: es => decide (h ≠ .free) && lockDiscipline h es
  | h, _ :: es => lockDiscipline h es

/-- The effects an operation added to the trace. -/
def emitted (before after : LogProcessor) : List Event :=
  after.trace.drop before.trace.length

/-! ## The session lifecycle -/

/-- A step of the session lifecycle: a call of `handleWebSocketConnection`
(registration, welcome message and start of the pumps), a call of
`broadcastToClients`, the cleanup of `readPump` for a session, or `Shutdown`. -/
inductive LifeStep where
  | register (now : Nat) (upgraded : Bool) (c : Nat)
  | broadcast (message : Bytes)
  | readerCleanup (c : Nat)
  | shutdown
deriving DecidableEq, Repr

/-- The effect of a lifecycle step. -/
def LifeStep.apply (lib : Lib) (lp : LogProcessor) : LifeStep → Except Fault LogProcessor
  | .register now upgraded c => handleWebSocketConnection lib now upgraded c lp
  | .broadcast message => broadcastToClients message lp
  | .readerCleanup c => .ok (readPumpCleanup c lp)
  | .shutdown => Shutdown lp

/-- A sequence of lifecycle steps, stopped by the first fault. -/
def runLife (lib : Lib) : List LifeStep → LogProcessor → Except Fault LogProcessor
  | [], lp => .ok lp
  | st :: rest, lp =>
    match st.apply lib lp with
    | .error p => .error p
    | .ok lp1 => runLife lib rest lp1

/-- The sessions whose outbound buffer a trace records as closed, one entry
per `close(client.send)`. -/
def sendCloses : List Event → List Nat
  | [] => []
  | .sendClose c :: es => c :: sendCloses es
  | _ :: es => sendCloses es

/-- A lifecycle for the demonstration: two sessions connect, a payload is
broadcast, the reader of the first session ends, the processor shuts down,
and a third connection is accepted afterwards. -/
def demoLife : List LifeStep :=
  [.register 1 true 0, .register 2 true 1, .broadcast [7], .readerCleanup 0, .shutdown,
   .register 3 true 2]

/-- The fault that stopped a computation, if any. -/
def faultOf {α : Type} : Except Fault α → Option Fault
  | .error p => some p
  | .ok _ => none

/-! ## One session among the goroutines -/

/-- A statement of the processor that acts on one session object: the
non-blocking send of the broadcaster (with `conn.Close()` in its default
case), `close(client.send)` and `client.conn.Close()` as `Shutdown` and the
cleanup of `readPump` issue them, and an iteration of the writer of the
session or an event on its transport. -/
inductive SessionEvent where
  | enqueue (message : Bytes)
  | closeSend
  | connClose
  | writer (w : WriterEvent)
deriving DecidableEq, Repr

/-- The effect of a statement on the session object. -/
def SessionEvent.apply (cl : WebSocketClient) : SessionEvent → Except Fault WebSocketClient
  | .enqueue message =>
    match cl.send.trySend message with
    | .error p => .error p
    | .ok (some ch) => .ok { cl with send := ch }
    | .ok none => .ok { cl with conn := cl.conn.close }
  | .closeSend =>
    match cl.send.close with
    | .error p => .error p
    | .ok ch => .ok { cl with send := ch }
  | .connClose => .ok { cl with conn := cl.conn.close }
  | .writer w => .ok (if cl.writer = .running then writePumpIter w cl else cl)

/-- An interleaving of statements on one session object, stopped by the
first fault. -/
def sessionRun : List SessionEvent → WebSocketClient → Except Fault WebSocketClient
  | [], cl => .ok cl
  | e :: rest, cl =>
    match e.apply cl with
    | .error p => .error p
    | .ok cl1 => sessionRun rest cl1

/-- The payloads an interleaving offers to the buffer, in order. -/
def enqueued : List SessionEvent → List Bytes
  | [] => []
  | .enqueue message :: es => message :: enqueued es
  | _ :: es => enqueued es

/-- The session object as `handleWebSocketConnection` leaves it with the
demonstration codec: connection up, the welcome message `[0]` in an open
buffer, both pumps running. -/
def demoSession : WebSocketClient :=
  { conn := Conn.fresh
    send := { buf := [[0]], cap := 256, closed := false }
    writer := .running
    reader := .running }

/-- An interleaving for the demonstration: the writer sends the welcome
message, the broadcaster enqueues two payloads, a ping is due, and the
writer sends the first payload. -/
def demoEvents : List SessionEvent :=
  [.writer .recv, .enqueue [1], .enqueue [2], .writer .tick, .writer .recv]

/-! # Theorems -/

section Projections

variable (lp : LogProcessor) (e : Event) (c d : Nat) (v : WebSocketClient)

@[simp] theorem emit_clients : (lp.emit e).clients = lp.clients := rfl
@[simp] theorem emit_heap : (lp.emit e).heap = lp.heap := rfl
@[simp] theorem emit_broadcast : (lp.emit e).broadcast = lp.broadcast := rfl
@[simp] theorem emit_cancelled : (lp.emit e).cancelled = lp.cancelled := rfl
@[simp] theorem emit_consumer : (lp.emit e).consumer = lp.consumer := rfl
@[simp] theorem emit_indexTasks : (lp.emit e).indexTasks = lp.indexTasks := rfl
@[simp] theorem emit_esCalls : (lp.emit e).esCalls = lp.esCalls := rfl
@[simp] theorem emit_config : (lp.emit e).config = lp.config := rfl
@[simp] theorem emit_trace : (lp.emit e).trace = lp.trace ++ [e] := rfl
@[simp] theorem setClient_clients : (lp.setClient c v).clients = lp.clients := rfl
@[simp] theorem setClient_broadcast : (lp.setClient c v).broadcast = lp.broadcast := rfl
@[simp] theorem setClient_cancelled : (lp.setClient c v).cancelled = lp.cancelled := rfl
@[simp] theorem setClient_consumer : (lp.setClient c v).consumer = lp.consumer := rfl
@[simp] theorem setClient_indexTasks : (lp.setClient c v).indexTasks = lp.indexTasks := rfl
@[simp] theorem setClient_esCalls : (lp.setClient c v).esCalls = lp.esCalls := rfl
@[simp] theorem setClient_config : (lp.setClient c v).config = lp.config := rfl
@[simp] theorem setClient_trace : (lp.setClient c v).trace = lp.trace := rfl
@[simp] theorem setClient_heap_same : (lp.setClient c v).heap c = v := by
  simp [LogProcessor.setClient]

theorem setClient_heap_other (h : d ≠ c) : (lp.setClient c v).heap d = lp.heap d := by
  simp [LogProcessor.setClient, Function.update_noteq h]

end Projections

/-! ## The broadcast pass -/

/-- The loop body when the buffer is open and has room. -/
theorem broadcastVisit_room (m : Bytes) (s : LogProcessor) (c : Nat)
    (hopen : (s.heap c).send.closed = false)
    (hroom : (s.heap c).send.buf.length < (s.heap c).send.cap) :
    broadcastVisit m s c = .ok (s.setClient c
      { s.heap c with send := { (s.heap c).send with buf := (s.heap c).send.buf ++ [m] } }) := by
  simp [broadcastVisit, Chan.trySend, hopen, hroom]

/-- The loop body when the buffer is open and has no room. -/
theorem broadcastVisit_full (m : Bytes) (s : LogProcessor) (c : Nat)
    (hopen : (s.heap c).send.closed = false)
    (hfull : ¬ (s.heap c).send.buf.length < (s.heap c).send.cap) :
    broadcastVisit m s c = .ok
      ({ ((s.emit (.log .clientBufferFull)).setClient c
            { s.heap c with conn := (s.heap c).conn.close }).emit (.connClose c) with
          clients := s.clients.filter (fun d => d != c) }.emit (.mapDelete c)) := by
  simp [broadcastVisit, Chan.trySend, hopen, hfull]

/-- The loop body on an open buffer: it never faults, rewrites the visited
session as `visited` says, removes it from the key set exactly when its
buffer had no room, and touches nothing else. -/
theorem broadcastVisit_open (m : Bytes) (s : LogProcessor) (c : Nat)
    (hopen : (s.heap c).send.closed = false) :
    ∃ s1, broadcastVisit m s c = .ok s1 ∧
      s1.heap c = visited m (s.heap c) ∧
      (∀ d, d ≠ c → s1.heap d = s.heap d) ∧
      s1.clients = (if (s.heap c).send.buf.length < (s.heap c).send.cap then s.clients
        else s.clients.filter (fun d => d != c)) ∧
      s1.broadcast = s.broadcast ∧ s1.cancelled = s.cancelled := by
  by_cases hroom : (s.heap c).send.buf.length < (s.heap c).send.cap
  · refine ⟨_, broadcastVisit_room m s c hopen hroom, ?_, ?_, ?_, rfl, rfl⟩
    · simp [visited, hroom]
    · intro d hd
      exact setClient_heap_other _ _ _ _ hd
    · simp [hroom]
  · refine ⟨_, broadcastVisit_full m s c hopen hroom, ?_, ?_, ?_, rfl, rfl⟩
    · simp [visited, hroom, LogProcessor.emit, LogProcessor.setClient]
    · intro d hd
      simp [LogProcessor.emit, LogProcessor.setClient, Function.update_noteq hd]
    · simp [hroom, LogProcessor.emit, LogProcessor.setClient]

/-- The whole `range` loop over distinct keys with open buffers. -/
theorem foldlM_broadcastVisit (m : Bytes) :
    ∀ (l : List Nat) (s : LogProcessor), l.Nodup →
      (∀ c ∈ l, (s.heap c).send.closed = false) →
      ∃ s', l.foldlM (broadcastVisit m) s = .ok s' ∧
        (∀ c ∈ l, s'.heap c = visited m (s.heap c)) ∧
        (∀ c, c ∉ l → s'.heap c = s.heap c) ∧
        s'.clients.Sublist s.clients ∧
        (∀ d, d ∈ s'.clients ↔
          d ∈ s.clients ∧ (d ∈ l → (s.heap d).send.buf.length < (s.heap d).send.cap)) ∧
        s'.broadcast = s.broadcast ∧ s'.cancelled = s.cancelled := by
  intro l
  induction l with
  | nil =>
    intro s _ _
    exact ⟨s, rfl, by simp, by simp, List.Sublist.refl _, by simp, rfl, rfl⟩
  | cons c rest ih =>
    intro s hnd hopen
    have hc : c ∉ rest := (List.nodup_cons.mp hnd).1
    have hrest : rest.Nodup := (List.nodup_cons.mp hnd).2
    obtain ⟨s1, hv, hvc, hvo, hvk, hvb, hvx⟩ :=
      broadcastVisit_open m s c (hopen c (List.mem_cons_self _ _))
    have hne : ∀ d ∈ rest, d ≠ c := fun d hd hdc => hc (hdc ▸ hd)
    have hopen1 : ∀ d ∈ rest, (s1.heap d).send.closed = false := by
      intro d hd
      rw [hvo d (hne d hd)]
      exact hopen d (List.mem_cons_of_mem _ hd)
    obtain ⟨s2, hf, hfl, hfo, hfs, hfm, hfb, hfx⟩ := ih s1 hrest hopen1
    refine ⟨s2, ?_, ?_, ?_, ?_, ?_, hfb.trans hvb, hfx.trans hvx⟩
    · rw [List.foldlM_cons, hv]
      exact hf
    · intro d hd
      rcases List.mem_cons.mp hd with rfl | hd
      · rw [hfo d hc, hvc]
      · rw [hfl d hd, hvo d (hne d hd)]
    · intro d hd
      have hdc : d ≠ c := fun h => hd (h ▸ List.mem_cons_self _ _)
      have hdr : d ∉ rest := fun h => hd (List.mem_cons_of_mem _ h)
      rw [hfo d hdr, hvo d hdc]
    · refine hfs.trans ?_
      rw [hvk]
      split
      · exact List.Sublist.refl _
      · exact List.filter_sublist _
    · intro d
      rw [hfm d, hvk]
      by_cases hdc : d = c
      · subst hdc
        by_cases hroom : (s.heap d).send.buf.length < (s.heap d).send.cap
        · simp [hroom, hc]
        · simp [hroom, hc]
      · rw [hvo d hdc]
        by_cases hroom : (s.heap c).send.buf.length < (s.heap c).send.cap
        · simp [hroom, hdc]
        · simp [hroom, hdc, List.mem_filter]

/-- The function `broadcastToClients` on a well-formed session set. -/
theorem broadcastToClients_open (m : Bytes) (s : LogProcessor) (h : SessionsOpen s) :
    ∃ s', broadcastToClients m s = .ok s' ∧
      (∀ c ∈ s.clients, s'.heap c = visited m (s.heap c)) ∧
      (∀ c, c ∉ s.clients → s'.heap c = s.heap c) ∧
      s'.clients.Sublist s.clients ∧
      (∀ d, d ∈ s'.clients ↔ d ∈ s.clients ∧ (s.heap d).send.buf.length < 256) ∧
      s'.broadcast = s.broadcast ∧ s'.cancelled = s.cancelled := by
  obtain ⟨s2, hf, hfl, hfo, hfs, hfm, hfb, hfx⟩ :=
    foldlM_broadcastVisit m s.clients ((s.emit .rlock).emit .mapRange) h.1
      (fun c hc => (h.2 c hc).1)
  refine ⟨s2.emit .runlock, ?_, hfl, hfo, hfs, ?_, hfb, hfx⟩
  · simp only [broadcastToClients]
    have hf' : List.foldlM (broadcastVisit m) ((s.emit .rlock).emit .mapRange) s.clients
        = .ok s2 := hf
    rw [hf']
    rfl
  · intro d
    have := hfm d
    simp only [emit_clients, emit_heap] at this ⊢
    rw [this]
    constructor
    · rintro ⟨hd, hr⟩
      exact ⟨hd, (h.2 d hd).2 ▸ hr hd⟩
    · rintro ⟨hd, hr⟩
      exact ⟨hd, fun _ => (h.2 d hd).2 ▸ hr⟩

/-- A broadcast pass keeps the session set well formed. -/
theorem broadcastToClients_keeps_open (m : Bytes) (s s' : LogProcessor) (h : SessionsOpen s)
    (hs : broadcastToClients m s = .ok s') : SessionsOpen s' := by
  obtain ⟨s2, hb, hl, _, hsub, hmem, _, _⟩ := broadcastToClients_open m s h
  rw [hs] at hb
  cases hb
  refine ⟨h.1.sublist hsub, ?_⟩
  intro c hc
  have hcs : c ∈ s.clients := hsub.subset hc
  rw [hl c hcs]
  have := h.2 c hcs
  unfold visited
  split <;> simpa using this

/-- Successive passes leave a session registered, and append to its buffer,
as long as the payloads fit in it. -/
theorem broadcastAll_room (c : Nat) :
    ∀ (ms : List Bytes) (s : LogProcessor), SessionsOpen s → c ∈ s.clients →
      (s.heap c).send.buf.length + ms.length ≤ 256 →
      ∃ s', broadcastAll ms s = .ok s' ∧ SessionsOpen s' ∧ c ∈ s'.clients ∧
        (s'.heap c).send.buf = (s.heap c).send.buf ++ ms ∧
        (s'.heap c).conn = (s.heap c).conn := by
  intro ms
  induction ms with
  | nil =>
    intro s h hc _
    exact ⟨s, rfl, h, hc, by simp, rfl⟩
  | cons m rest ih =>
    intro s h hc hlen
    obtain ⟨s1, hb, hl, _, _, hmem, _, _⟩ := broadcastToClients_open m s h
    have hroom : (s.heap c).send.buf.length < 256 := by
      simp only [List.length_cons] at hlen
      omega
    have hcap : (s.heap c).send.cap = 256 := (h.2 c hc).2
    have hc1 : c ∈ s1.clients := (hmem c).mpr ⟨hc, hroom⟩
    have hh : s1.heap c
        = { s.heap c with send := { (s.heap c).send with buf := (s.heap c).send.buf ++ [m] } } := by
      rw [hl c hc]
      simp [visited, hcap, hroom]
    have h1 : SessionsOpen s1 := broadcastToClients_keeps_open m s s1 h hb
    have hlen1 : (s1.heap c).send.buf.length + rest.length ≤ 256 := by
      rw [hh]
      simp only [List.length_cons, List.length_append, List.length_nil] at hlen ⊢
      omega
    obtain ⟨s2, hr, h2, hc2, hbuf, hconn⟩ := ih s1 h1 hc1 hlen1
    refine ⟨s2, ?_, h2, hc2, ?_, ?_⟩
    · simp only [broadcastAll, List.foldlM_cons, hb]
      exact hr
    · rw [hbuf, hh]
      simp
    · rw [hconn, hh]

/-- C1. One call of `broadcastToClients` on a session set whose registered
sessions have open buffers of capacity 256 returns, and acts on each
registered session by the state of that session alone: a buffer holding
fewer than 256 entries gets the payload appended at its tail and the session
stays registered with its connection untouched; a buffer holding 256 entries
is left as it is, the connection is closed and the session leaves the set.
Sessions outside the set are not touched. A session with an empty buffer
that is never drained is still registered after up to 256 passes, holding
the payloads in order, and the pass after the 256th closes and removes it. -/
theorem broadcastToClients_per_session (lp : LogProcessor) (message : Bytes)
    (h : SessionsOpen lp) :
    ∃ lp', broadcastToClients message lp = .ok lp' ∧
      (∀ c ∈ lp.clients,
        ((lp.heap c).send.buf.length < 256 →
          c ∈ lp'.clients ∧
          (lp'.heap c).send.buf = (lp.heap c).send.buf ++ [message] ∧
          (lp'.heap c).send.closed = false ∧
          (lp'.heap c).conn = (lp.heap c).conn) ∧
        (256 ≤ (lp.heap c).send.buf.length →
          c ∉ lp'.clients ∧
          (lp'.heap c).send = (lp.heap c).send ∧
          (lp'.heap c).conn.closed = true)) ∧
      (∀ c, c ∉ lp.clients → c ∉ lp'.clients ∧ lp'.heap c = lp.heap c) ∧
      (∀ c ∈ lp.clients, (lp.heap c).send.buf = [] →
        ∀ ms : List Bytes, ms.length ≤ 256 →
          ∃ lp1, broadcastAll ms lp = .ok lp1 ∧ c ∈ lp1.clients ∧
            (lp1.heap c).send.buf = ms ∧ (lp1.heap c).conn = (lp.heap c).conn ∧
            (ms.length = 256 → ∀ extra : Bytes,
              ∃ lp2, broadcastToClients extra lp1 = .ok lp2 ∧ c ∉ lp2.clients ∧
                (lp2.heap c).send.buf = ms ∧ (lp2.heap c).conn.closed = true)) := by
  obtain ⟨lp', hb, hl, ho, hsub, hmem, _, _⟩ := broadcastToClients_open message lp h
  refine ⟨lp', hb, ?_, ?_, ?_⟩
  · intro c hc
    have hcap : (lp.heap c).send.cap = 256 := (h.2 c hc).2
    have hopen : (lp.heap c).send.closed = false := (h.2 c hc).1
    constructor
    · intro hroom
      refine ⟨(hmem c).mpr ⟨hc, hroom⟩, ?_, ?_, ?_⟩ <;>
        · rw [hl c hc]
          simp [visited, hcap, hroom, hopen]
    · intro hfull
      have hnr : ¬ (lp.heap c).send.buf.length < 256 := by omega
      refine ⟨fun hin => hnr ((hmem c).mp hin).2, ?_, ?_⟩ <;>
        · rw [hl c hc]
          simp [visited, hcap, hnr, Conn.close]
  · intro c hc
    exact ⟨fun hin => hc (hsub.subset hin), ho c hc⟩
  · intro c hc hempty ms hlen
    obtain ⟨lp1, hr, h1, hc1, hbuf, hconn⟩ :=
      broadcastAll_room c ms lp h hc (by rw [hempty]; simpa using hlen)
    refine ⟨lp1, hr, hc1, by rw [hbuf, hempty]; rfl, hconn, ?_⟩
    intro h256 extra
    obtain ⟨lp2, hb2, hl2, _, _, hmem2, _, _⟩ := broadcastToClients_open extra lp1 h1
    have hbuf1 : (lp1.heap c).send.buf = ms := by rw [hbuf, hempty]; rfl
    have hms : ¬ ms.length < 256 := by omega
    have hnr : ¬ (lp1.heap c).send.buf.length < 256 := by rw [hbuf1]; exact hms
    have hcap1 : (lp1.heap c).send.cap = 256 := (h1.2 c hc1).2
    refine ⟨lp2, hb2, fun hin => hnr ((hmem2 c).mp hin).2, ?_, ?_⟩ <;>
      · rw [hl2 c hc1]
        simp [visited, hcap1, hms, hbuf1, Conn.close]

/-- The demonstration processor has a well-formed session set. -/
theorem demoProcessor_open : SessionsOpen demoProcessor := by
  refine ⟨by decide, ?_⟩
  intro c hc
  have hc01 : c = 0 ∨ c = 1 := by
    have hc2 : c ∈ [0, 1] := hc
    simpa using hc2
  rcases hc01 with rfl | rfl
  · exact ⟨rfl, rfl⟩
  · exact ⟨rfl, rfl⟩

/-- C1 at the demonstration processor: one pass with the payload `[7]`
appends it to the empty buffer of session `0`, which stays registered, and
closes and removes session `1`, whose buffer holds 256 entries. -/
theorem broadcastToClients_per_session_witness :
    SessionsOpen demoProcessor ∧
    ∃ lp', broadcastToClients [7] demoProcessor = .ok lp' ∧
      0 ∈ lp'.clients ∧ (lp'.heap 0).send.buf = [[7]] ∧
      1 ∉ lp'.clients ∧ (lp'.heap 1).conn.closed = true := by
  refine ⟨demoProcessor_open, ?_⟩
  obtain ⟨lp', hb, hreg, _, _⟩ := broadcastToClients_per_session demoProcessor [7] demoProcessor_open
  have hfull : 256 ≤ (demoProcessor.heap 1).send.buf.length := by
    have hbuf : (demoProcessor.heap 1).send.buf = List.replicate 256 [] := rfl
    rw [hbuf, List.length_replicate]
  have h0 := (hreg 0 (by decide)).1 (by decide)
  have h1 := (hreg 1 (by decide)).2 hfull
  exact ⟨lp', hb, h0.1, h0.2.1, h1.1, h1.2.2⟩

/-! ## The ingest loop -/

/-- C2. In an iteration of `consumeAndIndex` that reads a message (the
context is not cancelled and the broadcast queue, of capacity 1000, is
open), the iteration returns without fault and the loop goes on to its next
read from a state in which the payload has been handed to the indexer and
offered to the broadcast queue: a queue holding fewer than 1000 entries has
the payload appended at its tail, a queue holding 1000 entries is unchanged
and the drop is logged. Nothing depends on the content of the payload. -/
theorem consumeIter_offers_both (lp : LogProcessor) (value : Bytes)
    (hrun : lp.cancelled = false) (hopen : lp.broadcast.closed = false)
    (hcap : lp.broadcast.cap = 1000) :
    ∃ lp', consumeIter (.message value) lp = .ok (lp', false) ∧
      (∀ rs, consumeLoop (.message value :: rs) lp = consumeLoop rs lp') ∧
      lp'.indexTasks = lp.indexTasks ++ [value] ∧
      (lp.broadcast.buf.length < 1000 →
        lp'.broadcast = { lp.broadcast with buf := lp.broadcast.buf ++ [value] } ∧
        lp'.trace = lp.trace ++ [.log (.consumed value)]) ∧
      (1000 ≤ lp.broadcast.buf.length →
        lp'.broadcast = lp.broadcast ∧
        lp'.trace = lp.trace ++ [.log (.consumed value), .log .broadcastFull]) := by
  by_cases hroom : lp.broadcast.buf.length < 1000
  · have hiter : consumeIter (.message value) lp = .ok
        ({ { lp.emit (.log (.consumed value)) with indexTasks := lp.indexTasks ++ [value] } with
            broadcast := { lp.broadcast with buf := lp.broadcast.buf ++ [value] } }, false) := by
      simp [consumeIter, Chan.trySend, hrun, hopen, hcap, hroom]
    refine ⟨_, hiter, ?_, rfl, ?_, ?_⟩
    · intro rs
      simp only [consumeLoop, hiter]
    · intro _
      exact ⟨rfl, rfl⟩
    · intro hfull
      omega
  · have hiter : consumeIter (.message value) lp = .ok
        (({ lp.emit (.log (.consumed value)) with
            indexTasks := lp.indexTasks ++ [value] } : LogProcessor).emit (.log .broadcastFull),
          false) := by
      simp [consumeIter, Chan.trySend, hrun, hopen, hcap, hroom]
    refine ⟨_, hiter, ?_, rfl, ?_, ?_⟩
    · intro rs
      simp only [consumeLoop, hiter]
    · intro h
      exact absurd h hroom
    · intro _
      refine ⟨rfl, ?_⟩
      simp [LogProcessor.emit]

/-- C2 at the processor built by `NewLogProcessor`, whose queue is empty:
the payload `[1, 2]` is handed to the indexer and enqueued. -/
theorem consumeIter_offers_both_witness :
    (NewLogProcessor demoConfig).cancelled = false ∧
    (NewLogProcessor demoConfig).broadcast.closed = false ∧
    (NewLogProcessor demoConfig).broadcast.cap = 1000 ∧
    ∃ lp', consumeIter (.message [1, 2]) (NewLogProcessor demoConfig)
        = .ok (lp', false) ∧
      lp'.indexTasks = [[1, 2]] ∧ lp'.broadcast.buf = [[1, 2]] := by
  obtain ⟨lp', hi, _, ht, hroom, _⟩ :=
    consumeIter_offers_both (NewLogProcessor demoConfig) [1, 2] rfl rfl rfl
  refine ⟨rfl, rfl, rfl, lp', hi, ht, ?_⟩
  rw [(hroom (by decide)).1]
  rfl

/-! ## Shutdown -/

/-- The loop body of `Shutdown` on an open buffer. -/
theorem shutdownVisit_open (s : LogProcessor) (c : Nat)
    (hopen : (s.heap c).send.closed = false) :
    shutdownVisit s c = .ok
      ((((s.setClient c { s.heap c with conn := (s.heap c).conn.close }).emit (.connClose c)).setClient c
        (shutDown (s.heap c))).emit (.sendClose c)) := by
  simp [shutdownVisit, Chan.close, hopen, shutDown]

/-- The `range` loop of `Shutdown` over distinct keys with open buffers. -/
theorem foldlM_shutdownVisit :
    ∀ (l : List Nat) (s : LogProcessor), l.Nodup →
      (∀ c ∈ l, (s.heap c).send.closed = false) →
      ∃ s', l.foldlM shutdownVisit s = .ok s' ∧
        s'.trace = s.trace ++ shutdownEvents l ∧
        (∀ c ∈ l, s'.heap c = shutDown (s.heap c)) ∧
        (∀ c, c ∉ l → s'.heap c = s.heap c) ∧
        s'.clients = s.clients ∧ s'.broadcast = s.broadcast ∧
        s'.cancelled = s.cancelled ∧ s'.consumer = s.consumer := by
  intro l
  induction l with
  | nil =>
    intro s _ _
    exact ⟨s, rfl, by simp [shutdownEvents], by simp, by simp, rfl, rfl, rfl, rfl⟩
  | cons c rest ih =>
    intro s hnd hopen
    have hc : c ∉ rest := (List.nodup_cons.mp hnd).1
    have hne : ∀ d ∈ rest, d ≠ c := fun d hd hdc => hc (hdc ▸ hd)
    have hv := shutdownVisit_open s c (hopen c (List.mem_cons_self _ _))
    generalize hs1 : (((s.setClient c { s.heap c with conn := (s.heap c).conn.close }).emit
      (.connClose c)).setClient c (shutDown (s.heap c))).emit (.sendClose c) = s1 at hv
    have h1c : s1.heap c = shutDown (s.heap c) := by subst hs1; simp
    have h1o : ∀ d, d ≠ c → s1.heap d = s.heap d := by
      intro d hd
      subst hs1
      simp [LogProcessor.setClient, Function.update_noteq hd]
    have h1t : s1.trace = s.trace ++ [.connClose c, .sendClose c] := by subst hs1; simp
    have hopen1 : ∀ d ∈ rest, (s1.heap d).send.closed = false := by
      intro d hd
      rw [h1o d (hne d hd)]
      exact hopen d (List.mem_cons_of_mem _ hd)
    obtain ⟨s2, hf, ht, hl, ho, hk, hb, hx, hq⟩ := ih s1 (List.nodup_cons.mp hnd).2 hopen1
    refine ⟨s2, ?_, ?_, ?_, ?_, ?_, ?_, ?_, ?_⟩
    · rw [List.foldlM_cons, hv]
      exact hf
    · rw [ht, h1t]
      simp [shutdownEvents]
    · intro d hd
      rcases List.mem_cons.mp hd with rfl | hd
      · rw [ho d hc, h1c]
      · rw [hl d hd, h1o d (hne d hd)]
    · intro d hd
      have hdc : d ≠ c := fun h => hd (h ▸ List.mem_cons_self _ _)
      rw [ho d (fun h => hd (List.mem_cons_of_mem _ h)), h1o d hdc]
    · rw [hk]; subst hs1; rfl
    · rw [hb]; subst hs1; rfl
    · rw [hx]; subst hs1; rfl
    · rw [hq]; subst hs1; rfl

/-- C4. On a processor whose registered sessions are distinct and have open
buffers and whose broadcast queue is open, `Shutdown` returns, and its
effects occur in this order: the context is cancelled, the consumer (when
there is one) is closed, then under the write lock each registered session
has its connection and then its buffer closed, the map is reset, and after
the lock is released the broadcast queue is closed. In the state it returns
the session set is empty, the broadcast queue is closed, the context is
cancelled, the consumer is closed, and every session that was registered has
its connection and its buffer closed. -/
theorem Shutdown_completes (lp : LogProcessor) (hnd : lp.clients.Nodup)
    (hopen : ∀ c ∈ lp.clients, (lp.heap c).send.closed = false)
    (hb : lp.broadcast.closed = false) :
    ∃ lp', Shutdown lp = .ok lp' ∧
      lp'.trace = lp.trace ++ [.log .shuttingDown, .cancel]
        ++ (match lp.consumer with
            | some _ => [.consumerClose]
            | none => [])
        ++ [.lock, .mapRange] ++ shutdownEvents lp.clients
        ++ [.mapReset, .unlock, .broadcastClose, .log .shutdownComplete] ∧
      lp'.clients = [] ∧
      lp'.broadcast = { lp.broadcast with closed := true } ∧
      lp'.cancelled = true ∧
      lp'.consumer = lp.consumer.map (fun _ => { closed := true }) ∧
      (∀ c ∈ lp.clients, (lp'.heap c).conn.closed = true ∧ (lp'.heap c).send.closed = true ∧
        (lp'.heap c).send.buf = (lp.heap c).send.buf) ∧
      (∀ c, c ∉ lp.clients → lp'.heap c = lp.heap c) := by
  generalize hs3 : (match (({ lp.emit (.log .shuttingDown) with cancelled := true } :
      LogProcessor).emit .cancel).consumer with
    | some _ => ({ ({ lp.emit (.log .shuttingDown) with cancelled := true } :
        LogProcessor).emit .cancel with consumer := some { closed := true } } :
          LogProcessor).emit .consumerClose
    | none => ({ lp.emit (.log .shuttingDown) with cancelled := true } :
        LogProcessor).emit .cancel) = lp3
  have h3k : lp3.clients = lp.clients := by
    subst hs3; cases hq : lp.consumer <;> simp [hq]
  have h3h : lp3.heap = lp.heap := by
    subst hs3; cases hq : lp.consumer <;> simp [hq]
  have h3b : lp3.broadcast = lp.broadcast := by
    subst hs3; cases hq : lp.consumer <;> simp [hq]
  have h3x : lp3.cancelled = true := by
    subst hs3; cases hq : lp.consumer <;> simp [hq]
  have h3q : lp3.consumer = lp.consumer.map (fun _ => { closed := true }) := by
    subst hs3; cases hq : lp.consumer <;> simp [hq]
  have h3t : lp3.trace = lp.trace ++ [.log .shuttingDown, .cancel]
      ++ (match lp.consumer with
          | some _ => [.consumerClose]
          | none => []) := by
    subst hs3; cases hq : lp.consumer <;> simp [hq]
  obtain ⟨s5, hf, ht, hl, ho, hk, hbq, hx, hq⟩ :=
    foldlM_shutdownVisit lp3.clients ((lp3.emit .lock).emit .mapRange)
      (by rw [h3k]; exact hnd)
      (by
        intro c hc
        rw [h3k] at hc
        simp only [emit_heap, h3h]
        exact hopen c hc)
  have hrun : Shutdown lp = .ok
      ((({ (({ s5 with clients := [] } : LogProcessor).emit .mapReset).emit .unlock with
          broadcast := { lp.broadcast with closed := true } } : LogProcessor).emit
            .broadcastClose).emit (.log .shutdownComplete)) := by
    have hf' : List.foldlM shutdownVisit ((lp3.emit .lock).emit .mapRange) lp3.clients
        = .ok s5 := hf
    have hbc : s5.broadcast.close = .ok { lp.broadcast with closed := true } := by
      rw [hbq]
      simp [Chan.close, h3b, hb]
    simp only [Shutdown]
    rw [hs3]
    simp only [emit_clients, bind, Except.bind, hf', emit_broadcast]
    rw [hbc]
    rfl
  refine ⟨_, hrun, ?_, rfl, rfl, ?_, ?_, ?_, ?_⟩
  · simp only [emit_trace, ht, h3t, h3k]
    simp
  · simpa using hx.trans (by simpa using h3x)
  · simpa using hq.trans (by simpa using h3q)
  · intro c hc
    have hc3 : c ∈ lp3.clients := by rw [h3k]; exact hc
    have := hl c hc3
    simp only [emit_heap, h3h] at this
    simp only [emit_heap]
    rw [this]
    simp [shutDown, Conn.close]
  · intro c hc
    have hc3 : c ∉ lp3.clients := by rw [h3k]; exact hc
    have := ho c hc3
    simp only [emit_heap, h3h] at this
    simpa using this

/-- C4 at the demonstration processor: `Shutdown` returns a state with an
empty session set, a closed broadcast queue, a cancelled context, and both
sessions closed. -/
theorem Shutdown_completes_witness :
    demoProcessor.clients.Nodup ∧
    (∀ c ∈ demoProcessor.clients, (demoProcessor.heap c).send.closed = false) ∧
    demoProcessor.broadcast.closed = false ∧
    ∃ lp', Shutdown demoProcessor = .ok lp' ∧ lp'.clients = [] ∧
      lp'.broadcast.closed = true ∧ lp'.cancelled = true ∧
      (lp'.heap 0).conn.closed = true ∧ (lp'.heap 0).send.closed = true ∧
      (lp'.heap 1).conn.closed = true ∧ (lp'.heap 1).send.closed = true := by
  have hopen : ∀ c ∈ demoProcessor.clients, (demoProcessor.heap c).send.closed = false :=
    fun c hc => (demoProcessor_open.2 c hc).1
  refine ⟨demoProcessor_open.1, hopen, rfl, ?_⟩
  obtain ⟨lp', hs, _, hk, hb, hx, _, hl, _⟩ :=
    Shutdown_completes demoProcessor demoProcessor_open.1 hopen rfl
  have h0 := hl 0 (by decide)
  have h1 := hl 1 (by decide)
  exact ⟨lp', hs, hk, by rw [hb], hx, h0.1, h0.2.1, h1.1, h1.2.1⟩

/-! ## Deregistration -/

/-- The key set after the cleanup of `readPump`. -/
theorem readPumpCleanup_clients (c : Nat) (lp : LogProcessor) :
    (readPumpCleanup c lp).clients = lp.clients.filter (fun d => d != c) := rfl

/-- The session object after the cleanup of `readPump`. -/
theorem readPumpCleanup_heap (c : Nat) (lp : LogProcessor) :
    (readPumpCleanup c lp).heap c
      = { lp.heap c with conn := (lp.heap c).conn.close, reader := .exited } := by
  simp [readPumpCleanup]

/-- Deleting an absent key changes nothing. -/
theorem filter_ne_of_not_mem (c : Nat) (l : List Nat) (h : c ∉ l) :
    l.filter (fun d => d != c) = l := by
  rw [List.filter_eq_self]
  intro d hd
  have : d ≠ c := fun hdc => h (hdc ▸ hd)
  simpa using this

/-- The key just deleted is absent. -/
theorem not_mem_filter_ne (c : Nat) (l : List Nat) : c ∉ l.filter (fun d => d != c) := by
  simp [List.mem_filter]

/-- C5. The cleanup of `readPump` is idempotent on the session set: run
twice for `c` it leaves the set it leaves when run once, which is the set
with `c` removed and every other membership unchanged; and run after the
broadcaster has evicted `c` (the loop body of `broadcastToClients`, or a
whole pass that leaves `c` out) it leaves the set as the eviction left it,
which is again the set with `c` removed once. -/
theorem readPumpCleanup_idempotent (lp : LogProcessor) (c : Nat) :
    (readPumpCleanup c (readPumpCleanup c lp)).clients = (readPumpCleanup c lp).clients ∧
    c ∉ (readPumpCleanup c lp).clients ∧
    (∀ d, d ≠ c → (d ∈ (readPumpCleanup c lp).clients ↔ d ∈ lp.clients)) ∧
    (∀ m lp1, broadcastVisit m lp c = .ok lp1 → c ∉ lp1.clients →
      lp1.clients = (readPumpCleanup c lp).clients ∧
      (readPumpCleanup c lp1).clients = (readPumpCleanup c lp).clients) ∧
    (∀ m lp1, broadcastToClients m lp = .ok lp1 → c ∉ lp1.clients →
      (readPumpCleanup c lp1).clients = lp1.clients) := by
  refine ⟨?_, ?_, ?_, ?_, ?_⟩
  · rw [readPumpCleanup_clients, readPumpCleanup_clients]
    exact filter_ne_of_not_mem c _ (not_mem_filter_ne c _)
  · rw [readPumpCleanup_clients]
    exact not_mem_filter_ne c _
  · intro d hd
    rw [readPumpCleanup_clients]
    simp [List.mem_filter, hd]
  · intro m lp1 hv hc
    have hk : lp1.clients = lp.clients.filter (fun d => d != c) := by
      unfold broadcastVisit at hv
      split at hv
      · cases hv
      · cases hv
        have hc' : c ∉ lp.clients := hc
        exact (filter_ne_of_not_mem c _ hc').symm
      · cases hv
        rfl
    refine ⟨hk, ?_⟩
    rw [readPumpCleanup_clients, readPumpCleanup_clients, hk]
    exact filter_ne_of_not_mem c _ (not_mem_filter_ne c _)
  · intro m lp1 _ hc
    rw [readPumpCleanup_clients]
    exact filter_ne_of_not_mem c _ hc

/-- C5 at the demonstration processor and session `1`, whose buffer is
full: the broadcaster evicts it, and the cleanup run afterwards leaves the
session set `[0]`, the set obtained by removing session `1` once. -/
theorem readPumpCleanup_idempotent_witness :
    ∃ lp1, broadcastVisit [7] demoProcessor 1 = .ok lp1 ∧ 1 ∉ lp1.clients ∧
      lp1.clients = [0] ∧ (readPumpCleanup 1 lp1).clients = [0] ∧
      (readPumpCleanup 1 (readPumpCleanup 1 demoProcessor)).clients = [0] := by
  have hfull : ¬ (demoProcessor.heap 1).send.buf.length < (demoProcessor.heap 1).send.cap := by
    have hbuf : (demoProcessor.heap 1).send.buf = List.replicate 256 [] := rfl
    have hcap : (demoProcessor.heap 1).send.cap = 256 := rfl
    rw [hbuf, hcap, List.length_replicate]
    exact Nat.lt_irrefl _
  have hv := broadcastVisit_full [7] demoProcessor 1 rfl hfull
  have hone : (readPumpCleanup 1 demoProcessor).clients = [0] := by
    rw [readPumpCleanup_clients]
    decide
  have hnot : (1 : Nat) ∉ List.filter (fun d => d != 1) demoProcessor.clients :=
    not_mem_filter_ne 1 _
  obtain ⟨h2, _, _, hev, _⟩ := readPumpCleanup_idempotent demoProcessor 1
  have he := hev [7] _ hv hnot
  exact ⟨_, hv, hnot, he.1.trans hone, he.2.trans hone, h2.trans hone⟩

/-! ## The reader -/

/-- C6, as stated, fails: after the reader of session `0` of the
demonstration processor hits a receive error, the cleanup has removed the
session and closed its connection, but its outbound buffer is still open. -/
theorem readPump_leaves_buffer_open :
    readLoop [.fault 5 true] (readerConn 0 (demoProcessor.heap 0).conn)
      = (readerConn 0 (demoProcessor.heap 0).conn, some true) ∧
    0 ∉ (readPump 0 [.fault 5 true] 0 demoProcessor).clients ∧
    ((readPump 0 [.fault 5 true] 0 demoProcessor).heap 0).conn.closed = true ∧
    ((readPump 0 [.fault 5 true] 0 demoProcessor).heap 0).send.closed = false := by
  refine ⟨by decide, by decide, by decide, by decide⟩

/-- C6, amended. When the loop of `readPump` breaks on a receive error or an
expired deadline, the state after the cleanup has the session removed from
the set (every other membership unchanged), its connection closed and its
reader exited, while its outbound buffer is exactly as it was: the cleanup
does not close it. The same holds of the cleanup run on any state. -/
theorem readPump_cleanup_effect (lp : LogProcessor) (c start : Nat) (events : List Incoming)
    (k : Conn) (logged : Bool)
    (hbreak : readLoop events (readerConn start (lp.heap c).conn) = (k, some logged)) :
    c ∉ (readPump start events c lp).clients ∧
    (∀ d, d ≠ c → (d ∈ (readPump start events c lp).clients ↔ d ∈ lp.clients)) ∧
    ((readPump start events c lp).heap c).conn.closed = true ∧
    ((readPump start events c lp).heap c).reader = .exited ∧
    ((readPump start events c lp).heap c).send = (lp.heap c).send ∧
    (c ∉ (readPumpCleanup c lp).clients ∧
      ((readPumpCleanup c lp).heap c).conn.closed = true ∧
      ((readPumpCleanup c lp).heap c).send = (lp.heap c).send) := by
  have hrun : readPump start events c lp = readPumpCleanup c
      (if logged then (lp.setClient c { lp.heap c with conn := k }).emit (.log .readError)
        else lp.setClient c { lp.heap c with conn := k }) := by
    have hbreak' : readLoop events
        { (lp.heap c).conn with readLimit := some 512, readDeadline := some (start + 60 * Second) }
        = (k, some logged) := hbreak
    simp only [readPump, hbreak']
  rw [hrun]
  refine ⟨?_, ?_, ?_, ?_, ?_, ?_, ?_, ?_⟩
  · rw [readPumpCleanup_clients]
    exact not_mem_filter_ne c _
  · intro d hd
    rw [readPumpCleanup_clients]
    cases logged <;> simp [List.mem_filter, hd]
  · rw [readPumpCleanup_heap]
    rfl
  · rw [readPumpCleanup_heap]
  · rw [readPumpCleanup_heap]
    cases logged <;> simp
  · rw [readPumpCleanup_clients]
    exact not_mem_filter_ne c _
  · rw [readPumpCleanup_heap]
    rfl
  · rw [readPumpCleanup_heap]

/-- C6, amended, at session `0` of the demonstration processor after a
receive error at the clock reading 5. -/
theorem readPump_cleanup_effect_witness :
    readLoop [.fault 5 true] (readerConn 0 (demoProcessor.heap 0).conn)
      = (readerConn 0 (demoProcessor.heap 0).conn, some true) ∧
    0 ∉ (readPump 0 [.fault 5 true] 0 demoProcessor).clients ∧
    ((readPump 0 [.fault 5 true] 0 demoProcessor).heap 0).conn.closed = true ∧
    ((readPump 0 [.fault 5 true] 0 demoProcessor).heap 0).send = (demoProcessor.heap 0).send := by
  have hbreak : readLoop [.fault 5 true] (readerConn 0 (demoProcessor.heap 0).conn)
      = (readerConn 0 (demoProcessor.heap 0).conn, some true) := by decide
  have h := readPump_cleanup_effect demoProcessor 0 0 [.fault 5 true] _ true hbreak
  exact ⟨hbreak, h.1, h.2.2.1, h.2.2.2.2.1⟩

/-- C10, as stated, fails: the reader of session `0` of the demonstration
processor starts at the clock reading 0 and receives an ordinary message at
10 seconds; the receive succeeds (the reader keeps running, the session stays
registered) and the read deadline is still 60 seconds after the start, not
60 seconds after the receive. -/
theorem data_receive_keeps_deadline :
    (readRecv (.data (10 * Second) 1) (readerConn 0 (demoProcessor.heap 0).conn)).2 = none ∧
    0 ∈ (readPump 0 [.data (10 * Second) 1] 0 demoProcessor).clients ∧
    ((readPump 0 [.data (10 * Second) 1] 0 demoProcessor).heap 0).conn.readDeadline
      = some (60 * Second) ∧
    ((readPump 0 [.data (10 * Second) 1] 0 demoProcessor).heap 0).conn.readDeadline
      ≠ some (10 * Second + 60 * Second) := by
  refine ⟨by decide, by decide, by decide, by decide⟩

/-- C10, amended. `readPump` sets the read deadline to 60 seconds after its
start. On a connection that is open and whose deadline has not passed, the
receive of a pong frame at the clock reading `t` succeeds and moves the read
deadline to 60 seconds after `t`, changing nothing else; the receive of an
ordinary message within the read limit succeeds and leaves the connection,
its read deadline included, unchanged. -/
theorem readRecv_deadline (k : Conn) (t : Nat) (hopen : k.closed = false)
    (hlive : k.expired t = false) :
    readRecv (.pong t) k = ({ k with readDeadline := some (t + 60 * Second) }, none) ∧
    (∀ size, k.tooBig size = false → readRecv (.data t size) k = (k, none)) ∧
    (∀ start, (readerConn start k).readDeadline = some (start + 60 * Second)) ∧
    (∀ (lp : LogProcessor) (c start : Nat), (lp.heap c).conn.closed = false →
      ((readPump start [] c lp).heap c).conn.readDeadline = some (start + 60 * Second) ∧
      (t ≤ start + 60 * Second →
        ((readPump start [.pong t] c lp).heap c).conn.readDeadline = some (t + 60 * Second) ∧
        ∀ size, size ≤ 512 →
          ((readPump start [.data t size] c lp).heap c).conn.readDeadline
            = some (start + 60 * Second))) := by
  refine ⟨?_, ?_, fun _ => rfl, ?_⟩
  · simp [readRecv, hopen, hlive, Incoming.time, pongHandler]
  · intro size hsize
    simp [readRecv, hopen, hlive, Incoming.time, hsize]
  · intro lp c start hc
    refine ⟨?_, fun ht => ⟨?_, ?_⟩⟩
    · simp [readPump, readLoop, hc]
    · have hnot : ¬ start + 60 * Second < t := by omega
      simp [readPump, readLoop, readRecv, Conn.expired, Incoming.time, pongHandler, hc, hnot]
    · intro size hsize
      have hnot : ¬ start + 60 * Second < t := by omega
      have hsz : ¬ 512 < size := by omega
      simp [readPump, readLoop, readRecv, Conn.expired, Conn.tooBig, Incoming.time, hc, hnot, hsz]

/-- C10, amended, on the connection of a reader started at the clock
reading 0: a pong frame at 10 seconds moves the read deadline to 70
seconds, an ordinary message at 10 seconds leaves it at 60 seconds. -/
theorem readRecv_deadline_witness :
    (readerConn 0 Conn.fresh).closed = false ∧
    (readerConn 0 Conn.fresh).expired (10 * Second) = false ∧
    (readRecv (.pong (10 * Second)) (readerConn 0 Conn.fresh)).1.readDeadline
      = some (70 * Second) ∧
    (readRecv (.data (10 * Second) 1) (readerConn 0 Conn.fresh)).1.readDeadline
      = some (60 * Second) := by
  have h := readRecv_deadline (readerConn 0 Conn.fresh) (10 * Second) rfl (by decide)
  refine ⟨rfl, by decide, ?_, ?_⟩
  · rw [h.1]
    decide
  · rw [h.2.1 1 (by decide)]
    decide

/-! ## The indexer -/

/-- C8. `indexToElasticsearch` is a total function of the payload, the clock
and the answer of the index client, and returns a state, never an error. On
a payload that does not deserialize it calls the index client not at all;
on a payload that deserializes into `entry` it calls it exactly once, on the
configured index, with the document made of `entry` and the formatted
current time, whether that call succeeds or fails. It changes nothing but
the record of index calls and the log. -/
theorem indexToElasticsearch_calls (lib : Lib) (now : Nat) (esOk : Bool) (data : Bytes)
    (lp : LogProcessor) :
    (lib.unmarshal data = none →
      (indexToElasticsearch lib now esOk data lp).esCalls = lp.esCalls ∧
      (indexToElasticsearch lib now esOk data lp).trace = lp.trace ++ [.log .parseError]) ∧
    (∀ entry, lib.unmarshal data = some entry →
      (indexToElasticsearch lib now esOk data lp).esCalls = lp.esCalls ++
        [{ index := lp.config.ElasticsearchIndex,
           body := { timestamp := lib.formatRFC3339 now, log_entry := entry } }] ∧
      (indexToElasticsearch lib now esOk data lp).trace = lp.trace ++
        [.log (if esOk then .indexed entry.Message else .indexError)]) ∧
    (indexToElasticsearch lib now esOk data lp).clients = lp.clients ∧
    (indexToElasticsearch lib now esOk data lp).heap = lp.heap ∧
    (indexToElasticsearch lib now esOk data lp).broadcast = lp.broadcast ∧
    (indexToElasticsearch lib now esOk data lp).indexTasks = lp.indexTasks ∧
    (indexToElasticsearch lib now esOk data lp).cancelled = lp.cancelled := by
  unfold indexToElasticsearch
  cases hu : lib.unmarshal data with
  | none => simp
  | some entry => cases esOk <;> simp [LogProcessor.emit]

/-- C8 with the demonstration codec: the empty payload causes no index call,
the payload `[1]` causes one call on the index `"logs"` although the call
fails. -/
theorem indexToElasticsearch_calls_witness :
    demoLib.unmarshal [] = none ∧
    (indexToElasticsearch demoLib 3 true [] (NewLogProcessor demoConfig)).esCalls
      = [] ∧
    ((indexToElasticsearch demoLib 3 false [1]
        (NewLogProcessor demoConfig)).esCalls.map (fun call => call.index))
      = ["logs"] := by
  have h0 := (indexToElasticsearch_calls demoLib 3 true []
    (NewLogProcessor demoConfig)).1 rfl
  have h1 := (indexToElasticsearch_calls demoLib 3 false [1]
    (NewLogProcessor demoConfig)).2.1 _ rfl
  refine ⟨rfl, h0.1, ?_⟩
  rw [h1.1]
  rfl

/-! ## The writer -/

/-- A writer that has exited ignores every later event. -/
theorem writePump_exited (ws : List WriterEvent) (cl : WebSocketClient)
    (h : cl.writer = .exited) : writePump ws cl = cl := by
  cases ws with
  | nil => rfl
  | cons w ws => simp [writePump, h]

/-- On a healthy transport the writer drains a closed buffer. -/
theorem writePump_drains :
    ∀ (ws : List WriterEvent) (cl : WebSocketClient),
      WriterEvent.netDown ∉ ws → cl.writer = .running → cl.send.closed = true →
      cl.conn.writable = true → cl.send.buf.length + 1 ≤ ws.count .recv →
      (writePump ws cl).writer = .exited ∧
      nonPing (writePump ws cl).conn.out
        = nonPing cl.conn.out ++ cl.send.buf.map Frame.text ++ [.close] ∧
      (writePump ws cl).send.buf = [] ∧ (writePump ws cl).conn.closed = true := by
  intro ws
  induction ws with
  | nil =>
    intro cl _ _ _ _ hcount
    simp at hcount
  | cons w ws ih =>
    intro cl hnet hrun hclosed hwr hcount
    have hnet' : WriterEvent.netDown ∉ ws := fun h => hnet (List.mem_cons_of_mem _ h)
    have hstep : writePump (w :: ws) cl = writePump ws (writePumpIter w cl) := by
      simp [writePump, hrun]
    rw [hstep]
    cases w with
    | netDown => exact absurd (List.mem_cons_self _ _) hnet
    | tick =>
      have hit : writePumpIter .tick cl
          = { cl with conn := { cl.conn with out := cl.conn.out ++ [.ping] } } := by
        simp [writePumpIter, hwr]
      rw [hit]
      have hwr' : ({ cl.conn with out := cl.conn.out ++ [.ping] } : Conn).writable = true := hwr
      have hcount' : cl.send.buf.length + 1 ≤ ws.count .recv := by
        simpa [List.count_cons] using hcount
      have := ih { cl with conn := { cl.conn with out := cl.conn.out ++ [.ping] } }
        hnet' hrun hclosed hwr' hcount'
      simpa [nonPing, List.filter_append] using this
    | recv =>
      cases hbuf : cl.send.buf with
      | nil =>
        have hit : writePumpIter .recv cl = writePumpExit
            { cl with conn := { cl.conn with out := cl.conn.out ++ [.close] } } := by
          simp [writePumpIter, Chan.recv, hbuf, hclosed, hwr]
        rw [hit, writePump_exited ws _ rfl]
        simp [writePumpExit, nonPing, List.filter_append, Conn.close, hbuf]
      | cons m rest =>
        have hit : writePumpIter .recv cl
            = { cl with conn := { cl.conn with out := cl.conn.out ++ [.text m] },
                        send := { cl.send with buf := rest } } := by
          simp [writePumpIter, Chan.recv, hbuf, hwr]
        rw [hit]
        have hwr' : ({ cl.conn with out := cl.conn.out ++ [.text m] } : Conn).writable = true := hwr
        have hcount' : rest.length + 1 ≤ ws.count .recv := by
          simp [List.count_cons, hbuf] at hcount
          omega
        have := ih { cl with conn := { cl.conn with out := cl.conn.out ++ [.text m] },
                             send := { cl.send with buf := rest } }
          hnet' hrun hclosed hwr' hcount'
        simpa [nonPing, List.filter_append] using this

/-- The payloads of a concatenation. -/
theorem payloadsOf_append (fs gs : List Frame) :
    payloadsOf (fs ++ gs) = payloadsOf fs ++ payloadsOf gs := by
  induction fs with
  | nil => rfl
  | cons f fs ih => cases f <;> simp [payloadsOf, ih]

/-- Whatever happens, the payloads a writer puts on the transport are a
prefix of its buffer, in order and unchanged. -/
theorem writePump_prefix :
    ∀ (ws : List WriterEvent) (cl : WebSocketClient),
      ∃ n, payloadsOf (writePump ws cl).conn.out
        = payloadsOf cl.conn.out ++ cl.send.buf.take n := by
  intro ws
  induction ws with
  | nil =>
    intro cl
    exact ⟨0, by simp [writePump]⟩
  | cons w ws ih =>
    intro cl
    by_cases hex : cl.writer = .exited
    · exact ⟨0, by simp [writePump, hex]⟩
    · have hstep : writePump (w :: ws) cl = writePump ws (writePumpIter w cl) := by
        simp [writePump, hex]
      rw [hstep]
      obtain ⟨n, hn⟩ := ih (writePumpIter w cl)
      cases w with
      | netDown => exact ⟨n, by simpa [writePumpIter] using hn⟩
      | tick =>
        by_cases hwr : cl.conn.writable = true
        · refine ⟨n, ?_⟩
          simpa [writePumpIter, hwr, payloadsOf_append, payloadsOf] using hn
        · refine ⟨n, ?_⟩
          simpa [writePumpIter, hwr, writePumpExit, Conn.close] using hn
      | recv =>
        cases hbuf : cl.send.buf with
        | nil =>
          refine ⟨0, ?_⟩
          by_cases hcl : cl.send.closed = true
          · by_cases hwr : cl.conn.writable = true
            · simpa [writePumpIter, Chan.recv, hbuf, hcl, hwr, writePumpExit, Conn.close,
                payloadsOf_append, payloadsOf] using hn
            · simpa [writePumpIter, Chan.recv, hbuf, hcl, hwr, writePumpExit, Conn.close] using hn
          · simpa [writePumpIter, Chan.recv, hbuf, hcl] using hn
        | cons m rest =>
          by_cases hwr : cl.conn.writable = true
          · refine ⟨n + 1, ?_⟩
            simpa [writePumpIter, Chan.recv, hbuf, hwr, payloadsOf_append, payloadsOf] using hn
          · refine ⟨0, ?_⟩
            have hit : writePumpIter .recv cl
                = writePumpExit { cl with send := { cl.send with buf := rest } } := by
              simp [writePumpIter, Chan.recv, hbuf, hwr]
            rw [hit, writePump_exited ws _ rfl]
            simp [writePumpExit, Conn.close]

/-- The frames other than pings of a concatenation. -/
theorem nonPing_append (fs gs : List Frame) : nonPing (fs ++ gs) = nonPing fs ++ nonPing gs := by
  simp [nonPing, List.filter_append]

/-- On a healthy transport the writer of an open buffer sends, for each time
it is woken for the buffer, the payload at its head as one text frame, and
keeps running. -/
theorem writePump_open_progress :
    ∀ (ws : List WriterEvent) (cl : WebSocketClient),
      WriterEvent.netDown ∉ ws → cl.writer = .running → cl.send.closed = false →
      cl.conn.writable = true →
      (writePump ws cl).send.buf = cl.send.buf.drop (ws.count .recv) ∧
      nonPing (writePump ws cl).conn.out
        = nonPing cl.conn.out ++ (cl.send.buf.take (ws.count .recv)).map Frame.text ∧
      (writePump ws cl).writer = .running ∧ (writePump ws cl).conn.writable = true ∧
      (writePump ws cl).send.closed = false := by
  intro ws
  induction ws with
  | nil =>
    intro cl _ hrun hopen hwr
    simp [writePump, hrun, hopen, hwr]
  | cons w ws ih =>
    intro cl hnet hrun hopen hwr
    have hnet' : WriterEvent.netDown ∉ ws := fun h => hnet (List.mem_cons_of_mem _ h)
    have hstep : writePump (w :: ws) cl = writePump ws (writePumpIter w cl) := by
      simp [writePump, hrun]
    rw [hstep]
    cases w with
    | netDown => exact absurd (List.mem_cons_self _ _) hnet
    | tick =>
      have hit : writePumpIter .tick cl
          = { cl with conn := { cl.conn with out := cl.conn.out ++ [.ping] } } := by
        simp [writePumpIter, hwr]
      rw [hit]
      have hwr' : ({ cl.conn with out := cl.conn.out ++ [.ping] } : Conn).writable = true := hwr
      have := ih { cl with conn := { cl.conn with out := cl.conn.out ++ [.ping] } }
        hnet' hrun hopen hwr'
      simpa [nonPing_append, nonPing, List.count_cons] using this
    | recv =>
      cases hbuf : cl.send.buf with
      | nil =>
        have hit : writePumpIter .recv cl = cl := by
          simp [writePumpIter, Chan.recv, hbuf, hopen]
        rw [hit]
        have := ih cl hnet' hrun hopen hwr
        simpa [hbuf] using this
      | cons m rest =>
        have hit : writePumpIter .recv cl
            = { cl with conn := { cl.conn with out := cl.conn.out ++ [.text m] },
                        send := { cl.send with buf := rest } } := by
          simp [writePumpIter, Chan.recv, hbuf, hwr]
        rw [hit]
        have hwr' : ({ cl.conn with out := cl.conn.out ++ [.text m] } : Conn).writable = true := hwr
        have := ih { cl with conn := { cl.conn with out := cl.conn.out ++ [.text m] },
                             send := { cl.send with buf := rest } }
          hnet' hrun hopen hwr'
        simpa [nonPing_append, nonPing, List.count_cons] using this

/-- An interleaving splits at any point into its first part and the rest run
from the state reached. -/
theorem sessionRun_append : ∀ (pre post : List SessionEvent) (cl : WebSocketClient),
    sessionRun (pre ++ post) cl
      = (match sessionRun pre cl with
        | .error p => .error p
        | .ok cl1 => sessionRun post cl1) := by
  intro pre
  induction pre with
  | nil =>
    intro post cl
    rfl
  | cons e rest ih =>
    intro post cl
    simp only [List.cons_append, sessionRun]
    cases e.apply cl with
    | error p => rfl
    | ok cl1 => exact ih post cl1

/-- Writer events alone, on a session whose writer runs, are a run of
`writePump`. -/
theorem sessionRun_writers : ∀ (ws : List WriterEvent) (cl : WebSocketClient),
    cl.writer = .running ∨ cl.writer = .exited →
    sessionRun (ws.map .writer) cl = .ok (writePump ws cl) := by
  intro ws
  induction ws with
  | nil =>
    intro cl _
    rfl
  | cons w ws ih =>
    intro cl hw
    rcases hw with hrun | hex
    · have hnext : (writePumpIter w cl).writer = .running ∨ (writePumpIter w cl).writer = .exited := by
        cases w with
        | netDown => exact Or.inl hrun
        | tick =>
          by_cases hwr : cl.conn.writable = true
          · left; simp [writePumpIter, hwr, hrun]
          · right; simp [writePumpIter, hwr, writePumpExit]
        | recv =>
          simp only [writePumpIter]
          split
          · exact Or.inl hrun
          · right; rfl
          · split
            · exact Or.inl hrun
            · right; rfl
      have := ih (writePumpIter w cl) hnext
      simp only [List.map_cons, sessionRun, SessionEvent.apply, hrun, if_true, writePump]
      simpa [hrun] using this
    · have := ih cl (Or.inr hex)
      simp only [List.map_cons, sessionRun, SessionEvent.apply, hex]
      rw [writePump_exited (w :: ws) cl hex]
      rw [writePump_exited ws cl hex] at this
      simpa using this

/-- A closed connection is not writable. -/
theorem close_not_writable (k : Conn) : k.close.writable = false := by
  simp [Conn.close, Conn.writable]

/-- A writer that has returned has closed its connection. -/
theorem writePumpExit_not_writable (cl : WebSocketClient) :
    (writePumpExit cl).conn.writable = false :=
  close_not_writable cl.conn

/-- An iteration of the writer never closes the buffer. -/
theorem writePumpIter_closed (w : WriterEvent) (cl : WebSocketClient) :
    (writePumpIter w cl).send.closed = cl.send.closed := by
  cases w with
  | netDown => rfl
  | tick =>
    by_cases hwr : cl.conn.writable = true
    · simp [writePumpIter, hwr]
    · simp [writePumpIter, hwr, writePumpExit]
  | recv =>
    cases hbuf : cl.send.buf with
    | nil =>
      by_cases hcl : cl.send.closed = true
      · by_cases hwr : cl.conn.writable = true
        · simp [writePumpIter, Chan.recv, hbuf, hcl, hwr, writePumpExit]
        · simp [writePumpIter, Chan.recv, hbuf, hcl, hwr, writePumpExit]
      · simp [writePumpIter, Chan.recv, hbuf, hcl]
    | cons m rest =>
      by_cases hwr : cl.conn.writable = true
      · simp [writePumpIter, Chan.recv, hbuf, hwr]
      · simp [writePumpIter, Chan.recv, hbuf, hwr, writePumpExit]

/-- One statement other than `close(client.send)`, on a session whose buffer
is open: it never faults and leaves the buffer open; and if the transport is
still up afterwards, it was up before, the writer still runs, and the text
frames sent together with the payloads buffered are those of before followed
by the payload the statement enqueued, if any. -/
theorem SessionEvent_apply_exact (e : SessionEvent) (cl : WebSocketClient)
    (he : e ≠ .closeSend) (hopen : cl.send.closed = false)
    (hlive : cl.conn.writable = true → cl.writer = .running) :
    ∃ c1, e.apply cl = .ok c1 ∧ c1.send.closed = false ∧
      (c1.conn.writable = true →
        c1.writer = .running ∧ cl.conn.writable = true ∧
        nonPing c1.conn.out ++ c1.send.buf.map Frame.text
          = nonPing cl.conn.out ++ (cl.send.buf ++ enqueued [e]).map Frame.text) := by
  cases e with
  | closeSend => exact absurd rfl he
  | connClose =>
    refine ⟨{ cl with conn := cl.conn.close }, rfl, hopen, ?_⟩
    intro hw
    have hw' : cl.conn.close.writable = true := hw
    rw [close_not_writable] at hw'
    cases hw'
  | enqueue m =>
    by_cases hroom : cl.send.buf.length < cl.send.cap
    · refine ⟨{ cl with send := { cl.send with buf := cl.send.buf ++ [m] } }, ?_, hopen, ?_⟩
      · simp [SessionEvent.apply, Chan.trySend, hopen, hroom]
      · intro hw
        refine ⟨hlive hw, hw, ?_⟩
        simp [enqueued]
    · refine ⟨{ cl with conn := cl.conn.close }, ?_, hopen, ?_⟩
      · simp [SessionEvent.apply, Chan.trySend, hopen, hroom]
      · intro hw
        have hw' : cl.conn.close.writable = true := hw
        rw [close_not_writable] at hw'
        cases hw'
  | writer w =>
    by_cases hrun : cl.writer = .running
    · refine ⟨writePumpIter w cl, by simp [SessionEvent.apply, hrun], ?_, ?_⟩
      · rw [writePumpIter_closed w cl]
        exact hopen
      · cases w with
        | netDown =>
          intro hw
          simp [writePumpIter, Conn.writable] at hw
        | tick =>
          by_cases hwr : cl.conn.writable = true
          · intro _
            refine ⟨by simp [writePumpIter, hwr, hrun], hwr, ?_⟩
            simp [writePumpIter, hwr, enqueued, nonPing_append, nonPing]
          · intro hw
            have hit : writePumpIter .tick cl = writePumpExit cl := by
              simp [writePumpIter, hwr]
            rw [hit, writePumpExit_not_writable] at hw
            cases hw
        | recv =>
          cases hbuf : cl.send.buf with
          | nil =>
            have hit : writePumpIter .recv cl = cl := by
              simp [writePumpIter, Chan.recv, hbuf, hopen]
            rw [hit]
            intro hw
            exact ⟨hrun, hw, by simp [enqueued, hbuf]⟩
          | cons m rest =>
            by_cases hwr : cl.conn.writable = true
            · intro _
              refine ⟨by simp [writePumpIter, Chan.recv, hbuf, hwr, hrun], hwr, ?_⟩
              simp [writePumpIter, Chan.recv, hbuf, hwr, enqueued, nonPing_append, nonPing]
            · intro hw
              have hit : writePumpIter .recv cl
                  = writePumpExit { cl with send := { cl.send with buf := rest } } := by
                simp [writePumpIter, Chan.recv, hbuf, hwr]
              rw [hit, writePumpExit_not_writable] at hw
              cases hw
    · refine ⟨cl, by simp [SessionEvent.apply, hrun], hopen, ?_⟩
      intro hw
      exact absurd (hlive hw) hrun

/-- The payloads offered by a concatenation of interleavings. -/
theorem enqueued_append (es fs : List SessionEvent) :
    enqueued (es ++ fs) = enqueued es ++ enqueued fs := by
  induction es with
  | nil => rfl
  | cons e es ih => cases e <;> simp [enqueued, ih]

/-- Any interleaving that does not close the buffer, on a session whose
buffer is open: it never faults and leaves the buffer open; and if the
transport is still up at its end, the writer still runs and every payload
enqueued has been sent as one text frame or is still buffered, in order and
unchanged. -/
theorem sessionRun_exact : ∀ (evs : List SessionEvent) (cl : WebSocketClient),
    SessionEvent.closeSend ∉ evs → cl.send.closed = false →
    (cl.conn.writable = true → cl.writer = .running) →
    ∃ c1, sessionRun evs cl = .ok c1 ∧ c1.send.closed = false ∧
      (c1.conn.writable = true →
        c1.writer = .running ∧ cl.conn.writable = true ∧
        nonPing c1.conn.out ++ c1.send.buf.map Frame.text
          = nonPing cl.conn.out ++ (cl.send.buf ++ enqueued evs).map Frame.text) := by
  intro evs
  induction evs with
  | nil =>
    intro cl _ hopen hlive
    exact ⟨cl, rfl, hopen, fun hw => ⟨hlive hw, hw, by simp [enqueued]⟩⟩
  | cons e rest ih =>
    intro cl hno hopen hlive
    have he : e ≠ .closeSend := fun h => hno (h ▸ List.mem_cons_self _ _)
    obtain ⟨c1, ha, ho1, hx1⟩ := SessionEvent_apply_exact e cl he hopen hlive
    obtain ⟨c2, hr, ho2, hx2⟩ :=
      ih c1 (fun hin => hno (List.mem_cons_of_mem _ hin)) ho1 (fun hw => (hx1 hw).1)
    refine ⟨c2, by simp only [sessionRun, ha, hr], ho2, ?_⟩
    intro hw
    obtain ⟨hrun2, hw1, heq2⟩ := hx2 hw
    obtain ⟨_, hw0, heq1⟩ := hx1 hw1
    refine ⟨hrun2, hw0, ?_⟩
    rw [heq2]
    have hsplit : enqueued (e :: rest) = enqueued [e] ++ enqueued rest :=
      enqueued_append [e] rest
    rw [hsplit]
    simp only [List.map_append] at heq1 ⊢
    rw [← List.append_assoc, heq1]
    simp only [List.append_assoc]

/-- The loop body of `broadcastToClients`, seen from the session it visits,
is the statement `enqueue`. -/
theorem broadcastVisit_on_session (m : Bytes) (s : LogProcessor) (c : Nat) :
    (match broadcastVisit m s c with
      | .error p => (.error p : Except Fault WebSocketClient)
      | .ok s1 => .ok (s1.heap c))
      = SessionEvent.apply (s.heap c) (.enqueue m) := by
  cases h : (s.heap c).send.trySend m with
  | error p => simp [broadcastVisit, SessionEvent.apply, h]
  | ok r =>
    cases r with
    | none => simp [broadcastVisit, SessionEvent.apply, h]
    | some ch => simp [broadcastVisit, SessionEvent.apply, h]

/-- The loop body of `Shutdown`, seen from the session it visits, is
`connClose` followed by `closeSend`. -/
theorem shutdownVisit_on_session (s : LogProcessor) (c : Nat) :
    (match shutdownVisit s c with
      | .error p => (.error p : Except Fault WebSocketClient)
      | .ok s1 => .ok (s1.heap c))
      = sessionRun [.connClose, .closeSend] (s.heap c) := by
  cases h : (s.heap c).send.closed with
  | false => simp [shutdownVisit, sessionRun, SessionEvent.apply, Chan.close, h]
  | true => simp [shutdownVisit, sessionRun, SessionEvent.apply, Chan.close, h]

/-- After an interleaving that leaves the transport up, closing the buffer
and waking the writer often enough makes it send what is left, then the
close frame, and return. -/
theorem sessionRun_then_close (evs : List SessionEvent) (cl c1 : WebSocketClient)
    (ws : List WriterEvent) (hrun : sessionRun evs cl = .ok c1)
    (hopen : c1.send.closed = false) (hw : c1.conn.writable = true)
    (hr : c1.writer = .running) (hnet : WriterEvent.netDown ∉ ws)
    (hcount : c1.send.buf.length + 1 ≤ ws.count .recv) :
    ∃ fin, sessionRun (evs ++ .closeSend :: ws.map .writer) cl = .ok fin ∧
      fin.writer = .exited ∧ fin.send.buf = [] ∧
      nonPing fin.conn.out
        = nonPing c1.conn.out ++ c1.send.buf.map Frame.text ++ [.close] := by
  have hd := writePump_drains ws { c1 with send := { c1.send with closed := true } }
    hnet hr rfl hw hcount
  refine ⟨writePump ws { c1 with send := { c1.send with closed := true } }, ?_,
    hd.1, hd.2.2.1, hd.2.1⟩
  rw [sessionRun_append, hrun]
  have hclose : SessionEvent.apply c1 .closeSend
      = .ok { c1 with send := { c1.send with closed := true } } := by
    simp [SessionEvent.apply, Chan.close, hopen]
  simp only [sessionRun, hclose]
  exact sessionRun_writers ws _ (Or.inl hr)

/-- After an interleaving that leaves the transport up, waking the writer
often enough makes it send what is left in the open buffer. -/
theorem sessionRun_then_drain (evs : List SessionEvent) (cl c1 : WebSocketClient)
    (ws : List WriterEvent) (hrun : sessionRun evs cl = .ok c1)
    (hopen : c1.send.closed = false) (hw : c1.conn.writable = true)
    (hr : c1.writer = .running) (hnet : WriterEvent.netDown ∉ ws)
    (hcount : c1.send.buf.length ≤ ws.count .recv) :
    ∃ fin, sessionRun (evs ++ ws.map .writer) cl = .ok fin ∧
      fin.writer = .running ∧ fin.send.buf = [] ∧
      nonPing fin.conn.out = nonPing c1.conn.out ++ c1.send.buf.map Frame.text := by
  have hd := writePump_open_progress ws c1 hnet hr hopen hw
  refine ⟨writePump ws c1, ?_, hd.2.2.1, ?_, ?_⟩
  · rw [sessionRun_append, hrun]
    exact sessionRun_writers ws _ (Or.inl hr)
  · rw [hd.1]
    exact List.drop_eq_nil_of_le hcount
  · rw [hd.2.1, List.take_of_length_le hcount]

/-- The order of `Shutdown`: the connection is closed before the buffer, so
the writer woken by the closure finds the transport gone and returns without
sending what is left in the buffer or a close frame. -/
theorem writePump_after_shutdownVisit (cl : WebSocketClient) (ws : List WriterEvent)
    (hrun : cl.writer = .running) (hopen : cl.send.closed = false) :
    ∃ fin, sessionRun (.connClose :: .closeSend :: (WriterEvent.recv :: ws).map .writer) cl
        = .ok fin ∧
      fin.writer = .exited ∧ fin.conn.out = cl.conn.out := by
  have hnw : ({ cl with conn := cl.conn.close, send := { cl.send with closed := true } } :
      WebSocketClient).conn.writable = false := close_not_writable cl.conn
  have hfirst : sessionRun
      (.connClose :: .closeSend :: (WriterEvent.recv :: ws).map .writer) cl
      = sessionRun ((WriterEvent.recv :: ws).map .writer)
          { cl with conn := cl.conn.close, send := { cl.send with closed := true } } := by
    simp [sessionRun, SessionEvent.apply, Chan.close, hopen]
  have hrun' : ({ cl with conn := cl.conn.close, send := { cl.send with closed := true } } :
      WebSocketClient).writer = .running := hrun
  rw [hfirst, sessionRun_writers (.recv :: ws) _ (Or.inl hrun')]
  have hstep : writePump (.recv :: ws)
      { cl with conn := cl.conn.close, send := { cl.send with closed := true } }
      = writePump ws (writePumpIter .recv
          { cl with conn := cl.conn.close, send := { cl.send with closed := true } }) := by
    simp [writePump, hrun]
  rw [hstep]
  cases hbuf : cl.send.buf with
  | nil =>
    have hit : writePumpIter .recv
        { cl with conn := cl.conn.close, send := { cl.send with closed := true } }
        = writePumpExit
            { cl with conn := cl.conn.close, send := { cl.send with closed := true } } := by
      simp [writePumpIter, Chan.recv, hbuf, hnw]
    rw [hit, writePump_exited ws _ rfl]
    exact ⟨_, rfl, rfl, rfl⟩
  | cons m rest =>
    have hit : writePumpIter .recv
        { cl with conn := cl.conn.close, send := { cl.send with closed := true } }
        = writePumpExit
            { cl with conn := cl.conn.close
                      send := { cl.send with buf := rest, closed := true } } := by
      simp [writePumpIter, Chan.recv, hbuf, hnw]
    rw [hit, writePump_exited ws _ rfl]
    exact ⟨_, rfl, rfl, rfl⟩

/-- C9. The writer of a session sends what is placed in the outbound buffer,
one text frame per payload, in buffer order and with the bytes unchanged.
From a session whose writer runs and whose buffer is open, for every
interleaving of enqueues, writer iterations, pings and transport events: as
long as the transport is up, every payload enqueued has been sent as a text
frame or is still in the buffer, none lost, repeated or reordered; waking the
writer often enough then empties the buffer onto the transport; and if the
buffer is closed while the transport is up, the writer sends what is left,
then one close frame, and returns. On a healthy transport each wake for an
open buffer sends exactly the payload at its head. On a transport that has
failed or a connection that has been closed, the first write the writer
attempts makes it return and nothing is sent then or later. In every run the
payloads sent are a prefix of the buffer. -/
theorem writePump_delivers (cl : WebSocketClient) (ws : List WriterEvent) :
    (WriterEvent.netDown ∉ ws → cl.writer = .running → cl.send.closed = true →
      cl.conn.writable = true → cl.send.buf.length + 1 ≤ ws.count .recv →
      (writePump ws cl).writer = .exited ∧
      nonPing (writePump ws cl).conn.out
        = nonPing cl.conn.out ++ cl.send.buf.map Frame.text ++ [.close] ∧
      (writePump ws cl).send.buf = [] ∧ (writePump ws cl).conn.closed = true) ∧
    (cl.writer = .running → cl.conn.writable = false →
      ∀ w, w ≠ .netDown → (w = .recv → cl.send.recv ≠ none) →
        (writePump (w :: ws) cl).writer = .exited ∧
        (writePump (w :: ws) cl).conn.out = cl.conn.out) ∧
    (∃ n, payloadsOf (writePump ws cl).conn.out
      = payloadsOf cl.conn.out ++ cl.send.buf.take n) ∧
    (WriterEvent.netDown ∉ ws → cl.writer = .running → cl.send.closed = false →
      cl.conn.writable = true →
      (writePump ws cl).send.buf = cl.send.buf.drop (ws.count .recv) ∧
      nonPing (writePump ws cl).conn.out
        = nonPing cl.conn.out ++ (cl.send.buf.take (ws.count .recv)).map Frame.text ∧
      (writePump ws cl).writer = .running ∧ (writePump ws cl).conn.writable = true) ∧
    (∀ evs : List SessionEvent, SessionEvent.closeSend ∉ evs → cl.writer = .running →
      cl.send.closed = false →
      ∃ c1, sessionRun evs cl = .ok c1 ∧ c1.send.closed = false ∧
        (c1.conn.writable = true →
          c1.writer = .running ∧
          nonPing c1.conn.out ++ c1.send.buf.map Frame.text
            = nonPing cl.conn.out ++ (cl.send.buf ++ enqueued evs).map Frame.text ∧
          (WriterEvent.netDown ∉ ws → c1.send.buf.length ≤ ws.count .recv →
            ∃ fin, sessionRun (evs ++ ws.map .writer) cl = .ok fin ∧
              fin.writer = .running ∧ fin.send.buf = [] ∧
              nonPing fin.conn.out
                = nonPing cl.conn.out ++ (cl.send.buf ++ enqueued evs).map Frame.text) ∧
          (WriterEvent.netDown ∉ ws → c1.send.buf.length + 1 ≤ ws.count .recv →
            ∃ fin, sessionRun (evs ++ .closeSend :: ws.map .writer) cl = .ok fin ∧
              fin.writer = .exited ∧ fin.send.buf = [] ∧
              nonPing fin.conn.out
                = nonPing cl.conn.out ++ (cl.send.buf ++ enqueued evs).map Frame.text
                  ++ [.close]))) := by
  refine ⟨writePump_drains ws cl, ?_, writePump_prefix ws cl, ?_, ?_⟩
  · intro hrun hwr w hw hready
    have hstep : writePump (w :: ws) cl = writePump ws (writePumpIter w cl) := by
      simp [writePump, hrun]
    rw [hstep]
    cases w with
    | netDown => exact absurd rfl hw
    | tick =>
      have hit : writePumpIter .tick cl = writePumpExit cl := by
        simp [writePumpIter, hwr]
      rw [hit, writePump_exited ws _ rfl]
      exact ⟨rfl, rfl⟩
    | recv =>
      have hr := hready rfl
      cases hrecv : cl.send.recv with
      | none => exact absurd hrecv hr
      | some res =>
        obtain ⟨msg, ch⟩ := res
        cases msg with
        | none =>
          have hit : writePumpIter .recv cl = writePumpExit { cl with send := ch } := by
            simp [writePumpIter, hrecv, hwr]
          rw [hit, writePump_exited ws _ rfl]
          exact ⟨rfl, rfl⟩
        | some m =>
          have hit : writePumpIter .recv cl = writePumpExit { cl with send := ch } := by
            simp [writePumpIter, hrecv, hwr]
          rw [hit, writePump_exited ws _ rfl]
          exact ⟨rfl, rfl⟩
  · intro hnet hrun hopen hwr
    obtain ⟨h1, h2, h3, h4, _⟩ := writePump_open_progress ws cl hnet hrun hopen hwr
    exact ⟨h1, h2, h3, h4⟩
  · intro evs hno hrun hopen
    obtain ⟨c1, hr, ho1, hx⟩ := sessionRun_exact evs cl hno hopen (fun _ => hrun)
    refine ⟨c1, hr, ho1, ?_⟩
    intro hw
    obtain ⟨hr1, _, heq⟩ := hx hw
    refine ⟨hr1, heq, ?_, ?_⟩
    · intro hnet hcount
      obtain ⟨fin, hf, hfr, hfb, hfo⟩ :=
        sessionRun_then_drain evs cl c1 ws hr ho1 hw hr1 hnet hcount
      exact ⟨fin, hf, hfr, hfb, by rw [hfo, heq]⟩
    · intro hnet hcount
      obtain ⟨fin, hf, hfr, hfb, hfo⟩ :=
        sessionRun_then_close evs cl c1 ws hr ho1 hw hr1 hnet hcount
      exact ⟨fin, hf, hfr, hfb, by rw [hfo, heq]⟩

/-- C9 at the session `handleWebSocketConnection` has just accepted: along
the demonstration interleaving the writer has sent the welcome message and
the first payload and holds the second; woken again it sends the second; and
if the buffer is closed with the transport up it sends the second and then
the close frame, and returns. -/
theorem writePump_delivers_witness :
    (handleWebSocketConnection demoLib 1 true 0 (NewLogProcessor demoConfig)).toOption.map
      (fun lp => lp.heap 0) = some demoSession ∧
    SessionEvent.closeSend ∉ demoEvents ∧ demoSession.writer = .running ∧
    demoSession.send.closed = false ∧
    ∃ c1, sessionRun demoEvents demoSession = .ok c1 ∧
      c1.conn.out = [.text [0], .ping, .text [1]] ∧ c1.send.buf = [[2]] ∧
      (∃ fin, sessionRun (demoEvents ++ [.writer .recv, .writer .recv]) demoSession = .ok fin ∧
        fin.writer = .running ∧ fin.send.buf = [] ∧
        nonPing fin.conn.out = [.text [0], .text [1], .text [2]]) ∧
      (∃ fin, sessionRun (demoEvents ++ [.closeSend, .writer .recv, .writer .recv]) demoSession
          = .ok fin ∧
        fin.writer = .exited ∧ fin.send.buf = [] ∧
        nonPing fin.conn.out = [.text [0], .text [1], .text [2], .close]) := by
  have hno : SessionEvent.closeSend ∉ demoEvents := by decide
  refine ⟨by decide, hno, rfl, rfl, ?_⟩
  obtain ⟨c1, hr, _, hx⟩ :=
    (writePump_delivers demoSession [.recv, .recv]).2.2.2.2 demoEvents hno rfl rfl
  have hval : (sessionRun demoEvents demoSession).toOption
      = some { conn := { Conn.fresh with out := [.text [0], .ping, .text [1]] }
               send := { buf := [[2]], cap := 256, closed := false }
               writer := .running
               reader := .running } := by decide
  rw [hr] at hval
  simp only [Except.toOption, Option.some.injEq] at hval
  subst hval
  obtain ⟨_, _, hdrain, hclose⟩ := hx (by decide)
  obtain ⟨fin1, hf1, hr1, hb1, ho1⟩ := hdrain (by decide) (by decide)
  obtain ⟨fin2, hf2, hr2, hb2, ho2⟩ := hclose (by decide) (by decide)
  exact ⟨_, hr, rfl, rfl, ⟨fin1, hf1, hr1, hb1, ho1⟩, ⟨fin2, hf2, hr2, hb2, ho2⟩⟩

/-! ## Lock discipline -/

set_option maxRecDepth 8192 in
/-- C7 fails on the code in two places. A pass of `broadcastToClients` over
the demonstration processor, where session `1` has a full buffer, deletes the
key from the map while holding only the read lock; and the health handler
reads the length of the map holding no lock. Registration, the cleanup of
`readPump` and `Shutdown` do keep the discipline: they take the write lock
around every access. -/
theorem lockDiscipline_violated :
    ((broadcastToClients [7] demoProcessor).toOption.map (fun lp' => emitted demoProcessor lp'))
      = some [.rlock, .mapRange, .log .clientBufferFull, .connClose 1, .mapDelete 1, .runlock] ∧
    lockDiscipline .free
      [.rlock, .mapRange, .log .clientBufferFull, .connClose 1, .mapDelete 1, .runlock] = false ∧
    emitted demoProcessor (healthHandler demoLib 0 demoProcessor).1 = [.mapLen] ∧
    lockDiscipline .free [.mapLen] = false ∧
    (∀ (lp : LogProcessor) (c : Nat),
      lockDiscipline .free (emitted lp (registerClient c lp)) = true ∧
      lockDiscipline .free (emitted lp (readPumpCleanup c lp)) = true) ∧
    ((Shutdown demoProcessor).toOption.map
      (fun lp' => lockDiscipline .free (emitted demoProcessor lp'))) = some true := by
  refine ⟨rfl, by decide, rfl, by decide, ?_, rfl⟩
  intro lp c
  constructor
  · have ht : (registerClient c lp).trace = lp.trace ++
        [.lock, .mapInsert c, .mapLen, .unlock,
          .log (.clientConnected (if c ∈ lp.clients then lp.clients else lp.clients ++ [c]).length)] := by
      simp [registerClient]
    simp [emitted, ht, lockDiscipline]
  · have ht : (readPumpCleanup c lp).trace = lp.trace ++
        [.lock, .mapDelete c, .mapLen, .unlock,
          .log (.clientDisconnected (lp.clients.filter (fun d => d != c)).length), .connClose c] := by
      simp [readPumpCleanup]
    simp [emitted, ht, lockDiscipline]

/-! ## Ordering through the pipeline -/

/-- An iteration of the writer moves the head of the buffer to the
transport, or drops it; it never closes the buffer. -/
theorem writePumpIter_sublist (w : WriterEvent) (cl : WebSocketClient) :
    (payloadsOf (writePumpIter w cl).conn.out ++ (writePumpIter w cl).send.buf).Sublist
      (payloadsOf cl.conn.out ++ cl.send.buf) ∧
    (writePumpIter w cl).send.closed = cl.send.closed := by
  cases w with
  | netDown => exact ⟨List.Sublist.refl _, rfl⟩
  | tick =>
    by_cases hwr : cl.conn.writable = true
    · simp [writePumpIter, hwr, payloadsOf_append, payloadsOf]
    · simp [writePumpIter, hwr, writePumpExit, Conn.close]
  | recv =>
    cases hbuf : cl.send.buf with
    | nil =>
      by_cases hcl : cl.send.closed = true
      · by_cases hwr : cl.conn.writable = true
        · simp [writePumpIter, Chan.recv, hbuf, hcl, hwr, writePumpExit, Conn.close,
            payloadsOf_append, payloadsOf]
        · simp [writePumpIter, Chan.recv, hbuf, hcl, hwr, writePumpExit, Conn.close]
      · simp [writePumpIter, Chan.recv, hbuf, hcl]
    | cons m rest =>
      by_cases hwr : cl.conn.writable = true
      · simp [writePumpIter, Chan.recv, hbuf, hwr, payloadsOf_append, payloadsOf]
      · simp [writePumpIter, Chan.recv, hbuf, hwr, writePumpExit, Conn.close]

/-- A pipeline at its start with distinct keys and open channels satisfies
the invariant relative to what its sessions hold. -/
theorem Inv_of_Fresh (s : System) (hq : s.Fresh) (hnd : s.lp.clients.Nodup)
    (hopen : ∀ c ∈ s.lp.clients, (s.lp.heap c).send.closed = false)
    (hb : s.lp.broadcast.closed = false) : s.Inv s.held := by
  obtain ⟨hp, hc, hbq⟩ := hq
  refine ⟨hb, hnd, hopen, ?_, ?_, [], ?_, ?_⟩
  · simp [System.pendingKeys, hp]
  · simp [System.pendingKeys, hp]
  · simp [System.current, hp, hbq]
  · intro c
    simp [System.pendingKeys, System.current, System.held, hp]

/-- In a state satisfying the invariant, what a session has been sent is a
subsequence of its initial content followed by the consumed sequence. -/
theorem Inv_sublist (base : Nat → List Bytes) (s : System) (h : s.Inv base) (c : Nat) :
    (payloadsOf (s.lp.heap c).conn.out).Sublist (base c ++ s.consumed) := by
  obtain ⟨_, _, _, _, _, handled, hcons, hall⟩ := h
  have h1 : (payloadsOf (s.lp.heap c).conn.out).Sublist
      (payloadsOf (s.lp.heap c).conn.out ++ (s.lp.heap c).send.buf) :=
    List.sublist_append_left _ _
  have h2 : (if c ∈ s.pendingKeys then handled else handled ++ s.current).Sublist
      (handled ++ s.current) := by
    split
    · exact List.sublist_append_left _ _
    · exact List.Sublist.refl _
  have h3 : (handled ++ s.current).Sublist (handled ++ s.current ++ s.lp.broadcast.buf) :=
    List.sublist_append_left _ _
  exact (h1.trans (hall c)).trans (((h2.trans h3).trans hcons).append_left (base c))

/-- An iteration of the ingest loop on an open broadcast queue returns,
touches no session, and appends to the queue at most the value it read. -/
theorem consumeIter_open (r : ReadResult) (lp : LogProcessor)
    (hb : lp.broadcast.closed = false) :
    ∃ lp1 done, consumeIter r lp = .ok (lp1, done) ∧
      lp1.clients = lp.clients ∧ lp1.heap = lp.heap ∧ lp1.broadcast.closed = false ∧
      ∃ added : List Bytes, added.Sublist (readValue lp r) ∧
        lp1.broadcast.buf = lp.broadcast.buf ++ added := by
  by_cases hx : lp.cancelled = true
  · refine ⟨lp.emit (.log .consumerStopped), true, ?_, rfl, rfl, hb, [], ?_, ?_⟩
    · simp [consumeIter, hx]
    · exact List.nil_sublist _
    · simp
  · cases r with
    | timedOut =>
      refine ⟨lp, false, ?_, rfl, rfl, hb, [], List.nil_sublist _, by simp⟩
      simp [consumeIter, hx]
    | failed =>
      refine ⟨lp.emit (.log .consumerError), false, ?_, rfl, rfl, hb, [], List.nil_sublist _,
        by simp⟩
      simp [consumeIter, hx]
    | message value =>
      by_cases hroom : lp.broadcast.buf.length < lp.broadcast.cap
      · refine ⟨{ { lp.emit (.log (.consumed value)) with
            indexTasks := lp.indexTasks ++ [value] } with
            broadcast := { lp.broadcast with buf := lp.broadcast.buf ++ [value] } }, false,
          ?_, rfl, rfl, hb, [value], ?_, rfl⟩
        · simp [consumeIter, Chan.trySend, hx, hb, hroom]
        · simp [readValue, hx]
      · refine ⟨({ lp.emit (.log (.consumed value)) with
            indexTasks := lp.indexTasks ++ [value] } : LogProcessor).emit (.log .broadcastFull),
          false, ?_, rfl, rfl, hb, [], List.nil_sublist _, by simp⟩
        simp [consumeIter, Chan.trySend, hx, hb, hroom]

/-- The ingest step keeps the invariant. -/
theorem Inv_ingest (base : Nat → List Bytes) (s : System) (r : ReadResult) (h : s.Inv base) :
    ∃ s1, s.step (.ingest r) = .ok s1 ∧ s1.Inv base := by
  by_cases hdone : s.ingestDone = true
  · exact ⟨s, by simp [System.step, hdone], h⟩
  · obtain ⟨hb, hnd, hopen, hknd, hkin, handled, hcons, hall⟩ := h
    obtain ⟨lp1, done, hiter, hk, hh, hb1, added, hadd, hbuf⟩ := consumeIter_open r s.lp hb
    refine ⟨{ s with lp := lp1, ingestDone := done, consumed := s.consumed ++ readValue s.lp r },
      ?_, hb1, ?_, ?_, hknd, ?_, handled, ?_, ?_⟩
    · simp [System.step, hdone, hiter]
    · simpa [hk] using hnd
    · intro c hc
      simp only [hk, hh] at hc ⊢
      exact hopen c hc
    · intro c hc
      simp only [hk]
      exact hkin c hc
    · have : (handled ++ s.current ++ s.lp.broadcast.buf ++ added).Sublist
          (s.consumed ++ readValue s.lp r) := List.Sublist.append hcons hadd
      simpa [System.current, hbuf, List.append_assoc] using this
    · intro c
      have := hall c
      simpa [System.current, System.pendingKeys, hh] using this

/-- The writer step keeps the invariant. -/
theorem Inv_writer (base : Nat → List Bytes) (s : System) (c : Nat) (w : WriterEvent)
    (h : s.Inv base) :
    ∃ s1, s.step (.writer c w) = .ok s1 ∧ s1.Inv base := by
  by_cases hrun : (s.lp.heap c).writer = .running
  · obtain ⟨hb, hnd, hopen, hknd, hkin, handled, hcons, hall⟩ := h
    obtain ⟨hsub, hcl⟩ := writePumpIter_sublist w (s.lp.heap c)
    refine ⟨{ s with lp := s.lp.setClient c (writePumpIter w (s.lp.heap c)) }, ?_,
      hb, hnd, ?_, hknd, hkin, handled, hcons, ?_⟩
    · simp [System.step, hrun]
    · intro d hd
      by_cases hdc : d = c
      · subst hdc
        simp only [setClient_heap_same, hcl]
        exact hopen d hd
      · simp only [setClient_heap_other _ _ _ _ hdc]
        exact hopen d hd
    · intro d
      by_cases hdc : d = c
      · subst hdc
        simp only [setClient_heap_same]
        exact hsub.trans (hall d)
      · simp only [setClient_heap_other _ _ _ _ hdc]
        exact hall d
  · exact ⟨s, by simp [System.step, hrun], h⟩

/-- The dequeue step keeps the invariant. -/
theorem Inv_dequeue (base : Nat → List Bytes) (s : System) (pickDone : Bool) (h : s.Inv base) :
    ∃ s1, s.step (.dequeue pickDone) = .ok s1 ∧ s1.Inv base := by
  by_cases hdone : s.broadcasterDone = true
  · exact ⟨s, by simp [System.step, hdone], h⟩
  cases hp : s.pending with
  | some pr => exact ⟨s, by simp [System.step, hdone, hp], h⟩
  | none =>
    obtain ⟨hb, hnd, hopen, hknd, hkin, handled, hcons, hall⟩ := h
    simp only [System.pendingKeys, System.current, hp] at hknd hkin hcons hall
    cases hbuf : s.lp.broadcast.buf with
    | nil =>
      refine ⟨{ s with broadcasterDone := s.lp.cancelled }, ?_, hb, hnd, hopen, ?_, ?_,
        handled, ?_, ?_⟩
      · simp [System.step, hdone, hp, Chan.recv, hbuf, hb]
      · simp [System.pendingKeys, hp]
      · simp [System.pendingKeys, hp]
      · simpa [System.current, hp] using hcons
      · simpa [System.pendingKeys, System.current, hp] using hall
    | cons m rest =>
      by_cases hstop : (s.lp.cancelled && pickDone) = true
      · refine ⟨{ s with broadcasterDone := true }, ?_, hb, hnd, hopen, ?_, ?_,
          handled, ?_, ?_⟩
        · simp only [System.step, hdone, hp, Chan.recv, hbuf, hstop]
          simp
        · simp [System.pendingKeys, hp]
        · simp [System.pendingKeys, hp]
        · simpa [System.current, hp] using hcons
        · simpa [System.pendingKeys, System.current, hp] using hall
      · refine ⟨{ s with
            lp := (({ s.lp with broadcast := { s.lp.broadcast with buf := rest } } :
              LogProcessor).emit .rlock).emit .mapRange
            pending := some (m, s.lp.clients) }, ?_, hb, hnd, hopen, hnd, ?_, handled, ?_, ?_⟩
        · simp only [System.step, hdone, hp, Chan.recv, hbuf, hstop]
          simp
        · intro c hc
          exact hc
        · simpa [System.current, hbuf] using hcons
        · intro c
          have hc := hall c
          simp only [List.not_mem_nil, if_false, List.append_nil] at hc
          show (payloadsOf (s.lp.heap c).conn.out ++ (s.lp.heap c).send.buf).Sublist
            (base c ++ (if c ∈ s.lp.clients then handled else handled ++ [m]))
          split
          · exact hc
          · exact hc.trans ((List.sublist_append_left _ _).append_left _)

/-- The visit step keeps the invariant. -/
theorem Inv_visit (base : Nat → List Bytes) (s : System) (h : s.Inv base) :
    ∃ s1, s.step .visit = .ok s1 ∧ s1.Inv base := by
  cases hp : s.pending with
  | none => exact ⟨s, by simp [System.step, hp], h⟩
  | some pr =>
    obtain ⟨m, ks⟩ := pr
    obtain ⟨hb, hnd, hopen, hknd, hkin, handled, hcons, hall⟩ := h
    simp only [System.pendingKeys, System.current, hp] at hknd hkin hcons hall
    cases ks with
    | nil =>
      refine ⟨{ s with lp := s.lp.emit .runlock, pending := none }, ?_, hb, hnd, hopen, ?_, ?_,
        handled ++ [m], ?_, ?_⟩
      · simp [System.step, hp]
      · simp [System.pendingKeys]
      · simp [System.pendingKeys]
      · simpa [System.current] using hcons
      · intro c
        simpa [System.pendingKeys, System.current] using hall c
    | cons c rest =>
      have hc : c ∉ rest := (List.nodup_cons.mp hknd).1
      have hcin : c ∈ s.lp.clients := hkin c (List.mem_cons_self _ _)
      obtain ⟨lp1, hv, hvc, hvo, hvk, hvb, _⟩ := broadcastVisit_open m s.lp c (hopen c hcin)
      have hsub : lp1.clients.Sublist s.lp.clients := by
        rw [hvk]
        split
        · exact List.Sublist.refl _
        · exact List.filter_sublist _
      have hclosed : ∀ d, (lp1.heap d).send.closed = (s.lp.heap d).send.closed := by
        intro d
        by_cases hdc : d = c
        · subst hdc
          rw [hvc]
          unfold visited
          split <;> rfl
        · rw [hvo d hdc]
      refine ⟨{ s with lp := lp1, pending := some (m, rest) }, ?_, ?_, hnd.sublist hsub, ?_,
        (List.nodup_cons.mp hknd).2, ?_, handled, ?_, ?_⟩
      · simp [System.step, hp, hv]
      · simpa [hvb] using hb
      · intro d hd
        simp only [hclosed]
        exact hopen d (hsub.subset hd)
      · intro d hd
        have hdc : d ≠ c := fun hdc => hc (hdc ▸ hd)
        have hdin : d ∈ s.lp.clients := hkin d (List.mem_cons_of_mem _ hd)
        show d ∈ lp1.clients
        rw [hvk]
        split
        · exact hdin
        · simp [List.mem_filter, hdin, hdc]
      · simpa [System.current, hvb] using hcons
      · intro d
        show (payloadsOf (lp1.heap d).conn.out ++ (lp1.heap d).send.buf).Sublist
          (base d ++ (if d ∈ rest then handled else handled ++ [m]))
        by_cases hdc : d = c
        · subst hdc
          have hold := hall d
          simp only [List.mem_cons, true_or, if_true] at hold
          simp only [hc, if_false]
          rw [hvc]
          unfold visited
          split
          · have := List.Sublist.append hold (List.Sublist.refl [m])
            simpa [List.append_assoc] using this
          · exact (show (payloadsOf (s.lp.heap d).conn.out ++ (s.lp.heap d).send.buf).Sublist
              (base d ++ (handled ++ [m])) from
                hold.trans ((List.sublist_append_left _ _).append_left _))
        · have hold := hall d
          rw [hvo d hdc]
          simpa [List.mem_cons, hdc] using hold

/-- Every step keeps the invariant, so every run does, and no run faults. -/
theorem Inv_run (base : Nat → List Bytes) : ∀ (steps : List Step) (s : System), s.Inv base →
    ∃ s1, System.run steps s = .ok s1 ∧ s1.Inv base := by
  intro steps
  induction steps with
  | nil =>
    intro s h
    exact ⟨s, rfl, h⟩
  | cons st rest ih =>
    intro s h
    have hstep : ∃ s1, s.step st = .ok s1 ∧ s1.Inv base := by
      cases st with
      | ingest r => exact Inv_ingest base s r h
      | dequeue pickDone => exact Inv_dequeue base s pickDone h
      | visit => exact Inv_visit base s h
      | writer c w => exact Inv_writer base s c w h
    obtain ⟨s1, hs, h1⟩ := hstep
    obtain ⟨s2, hr, h2⟩ := ih s1 h1
    exact ⟨s2, by simp [System.run, hs, hr], h2⟩

/-- The turns of the `range` loop taken one step at a time, up to the return
of `broadcastToClients`, compute the loop of `broadcastToClients`. -/
theorem run_visits (m : Bytes) : ∀ (ks : List Nat) (s : System), s.pending = some (m, ks) →
    System.run (List.replicate (ks.length + 1) .visit) s
      = (match ks.foldlM (broadcastVisit m) s.lp with
        | .error p => .error p
        | .ok lp1 => .ok { s with lp := lp1.emit .runlock, pending := none }) := by
  intro ks
  induction ks with
  | nil =>
    intro s hp
    simp [List.replicate, System.run, System.step, hp, pure, Except.pure]
  | cons c rest ih =>
    intro s hp
    rw [List.foldlM_cons]
    cases hv : broadcastVisit m s.lp c with
    | error p => simp [List.replicate, System.run, System.step, hp, hv, bind, Except.bind]
    | ok lp1 =>
      have hstep : s.step .visit = .ok { s with lp := lp1, pending := some (m, rest) } := by
        simp [System.step, hp, hv]
      have hrun : System.run (List.replicate ((c :: rest).length + 1) .visit) s
          = System.run (List.replicate (rest.length + 1) .visit)
              { s with lp := lp1, pending := some (m, rest) } := by
        simp only [List.length_cons, List.replicate_succ, System.run, hstep]
      rw [hrun, ih _ rfl]
      rfl

/-- The broadcaster taken one step at a time, from the dequeue of a payload
to the return of `broadcastToClients`, computes an iteration of the loop of
`handleBroadcasts`. -/
theorem run_broadcast_pass (s : System) (pickDone : Bool) (m : Bytes) (rest : List Bytes)
    (hp : s.pending = none) (hd : s.broadcasterDone = false)
    (hbuf : s.lp.broadcast.buf = m :: rest) (hgo : (s.lp.cancelled && pickDone) = false) :
    System.run (.dequeue pickDone :: List.replicate (s.lp.clients.length + 1) .visit) s
      = (match handleBroadcastsIter pickDone s.lp with
        | .error p => .error p
        | .ok (lp1, _) => .ok { s with lp := lp1 }) := by
  have hstep : s.step (.dequeue pickDone) = .ok { s with
      lp := (({ s.lp with broadcast := { s.lp.broadcast with buf := rest } } :
        LogProcessor).emit .rlock).emit .mapRange
      pending := some (m, s.lp.clients) } := by
    simp only [System.step, hd, hp, Chan.recv, hbuf, hgo]
    simp
  have hiter : handleBroadcastsIter pickDone s.lp
      = (match broadcastToClients m { s.lp with broadcast := { s.lp.broadcast with buf := rest } } with
        | .error p => .error p
        | .ok lp1 => .ok (lp1, false)) := by
    simp only [handleBroadcastsIter, Chan.recv, hbuf, hgo]
    simp
  have hrun : System.run (.dequeue pickDone :: List.replicate (s.lp.clients.length + 1) .visit) s
      = System.run (List.replicate (s.lp.clients.length + 1) .visit) { s with
          lp := (({ s.lp with broadcast := { s.lp.broadcast with buf := rest } } :
            LogProcessor).emit .rlock).emit .mapRange
          pending := some (m, s.lp.clients) } := by
    simp only [System.run, hstep]
  rw [hrun, run_visits m s.lp.clients _ rfl, hiter]
  simp only [broadcastToClients, emit_clients, bind, Except.bind, pure, Except.pure]
  cases List.foldlM (broadcastVisit m)
      ((({ s.lp with broadcast := { s.lp.broadcast with buf := rest } } :
        LogProcessor).emit .rlock).emit .mapRange) s.lp.clients with
  | error p => rfl
  | ok lp1 => simp only [hp]

/-- C3. From a pipeline at its start (nothing consumed yet, the broadcast
queue empty) whose registered sessions are distinct and have open buffers
and whose broadcast queue is open, every interleaving of ingest steps,
broadcaster steps (the dequeue in `handleBroadcasts` and each turn of the
loop of `broadcastToClients`) and writer steps runs without fault, and in
the state it reaches the payloads written to the transport of any session
are, in this order, payloads the session had been sent or held in its buffer
at the start (its welcome message) and a subsequence of the consumed
sequence. So a session that held nothing at the start is sent a subsequence
of the consumed sequence: what it receives, it receives in the order of
consumption. -/
theorem broadcast_order_preserved (s0 : System) (steps : List Step) (hq : s0.Fresh)
    (hnd : s0.lp.clients.Nodup)
    (hopen : ∀ c ∈ s0.lp.clients, (s0.lp.heap c).send.closed = false)
    (hb : s0.lp.broadcast.closed = false) :
    ∃ s, System.run steps s0 = .ok s ∧
      (∀ c, ∃ pre post, payloadsOf (s.lp.heap c).conn.out = pre ++ post ∧
        pre.Sublist (s0.held c) ∧ post.Sublist s.consumed) ∧
      (∀ c, s0.held c = [] → (payloadsOf (s.lp.heap c).conn.out).Sublist s.consumed) := by
  obtain ⟨s, hrun, hinv⟩ := Inv_run s0.held steps s0 (Inv_of_Fresh s0 hq hnd hopen hb)
  refine ⟨s, hrun, ?_, ?_⟩
  · intro c
    exact List.sublist_append_iff.mp (Inv_sublist s0.held s hinv c)
  · intro c hc
    have := Inv_sublist s0.held s hinv c
    rwa [hc, List.nil_append] at this

/-- C3 on the demonstration interleaving: session `0` is sent its welcome
message `[0]` and then `[1]` and `[2]`, a subsequence of the consumed `[1]`,
`[2]`, `[3]`. -/
theorem broadcast_order_preserved_witness :
    demoSystem.Fresh ∧ demoSystem.lp.clients.Nodup ∧
    (∀ c ∈ demoSystem.lp.clients, (demoSystem.lp.heap c).send.closed = false) ∧
    demoSystem.lp.broadcast.closed = false ∧
    ∃ s, System.run demoSteps demoSystem = .ok s ∧
      (s.lp.heap 0).conn.out = [.text [0], .text [1], .ping, .text [2]] ∧
      s.consumed = [[1], [2], [3]] ∧
      ∃ pre post, payloadsOf (s.lp.heap 0).conn.out = pre ++ post ∧
        pre.Sublist [[0]] ∧ post.Sublist s.consumed := by
  have hnd : demoSystem.lp.clients.Nodup := by decide
  have hopen : ∀ c ∈ demoSystem.lp.clients, (demoSystem.lp.heap c).send.closed = false :=
    fun _ _ => rfl
  refine ⟨⟨rfl, rfl, rfl⟩, hnd, hopen, rfl, ?_⟩
  obtain ⟨s, hrun, hsub, _⟩ :=
    broadcast_order_preserved demoSystem demoSteps ⟨rfl, rfl, rfl⟩ hnd hopen rfl
  have hout : (System.run demoSteps demoSystem).toOption.map
      (fun s => ((s.lp.heap 0).conn.out, s.consumed))
      = some ([.text [0], .text [1], .ping, .text [2]], [[1], [2], [3]]) := by decide
  rw [hrun] at hout
  simp only [Except.toOption, Option.map_some', Option.some.injEq, Prod.mk.injEq] at hout
  exact ⟨s, hrun, hout.1, hout.2, hsub 0⟩

/-! ## The session lifecycle -/

/-- The closures recorded in a concatenation of traces. -/
theorem sendCloses_append (es fs : List Event) :
    sendCloses (es ++ fs) = sendCloses es ++ sendCloses fs := by
  induction es with
  | nil => rfl
  | cons e es ih => cases e <;> simp [sendCloses, ih]

/-- The closures `Shutdown` records for the sessions `cs` are `cs`. -/
theorem sendCloses_shutdownEvents (cs : List Nat) : sendCloses (shutdownEvents cs) = cs := by
  induction cs with
  | nil => rfl
  | cons c cs ih => simp [shutdownEvents, sendCloses, ih]

/-- The session object allocated by `registerClient`. -/
theorem registerClient_heap_same (c : Nat) (lp : LogProcessor) :
    (registerClient c lp).heap c
      = { conn := Conn.fresh, send := makeChan 256, writer := .notStarted,
          reader := .notStarted } := by
  simp [registerClient]

/-- `registerClient` touches no other session object. -/
theorem registerClient_heap_other (c d : Nat) (lp : LogProcessor) (h : d ≠ c) :
    (registerClient c lp).heap d = lp.heap d := by
  simp [registerClient, LogProcessor.setClient, Function.update_noteq h]

/-- The key set after `registerClient`. -/
theorem registerClient_clients (c : Nat) (lp : LogProcessor) :
    (registerClient c lp).clients
      = if c ∈ lp.clients then lp.clients else lp.clients ++ [c] := by
  simp [registerClient]

/-- `registerClient` keeps the session set well formed. -/
theorem registerClient_keeps_open (c : Nat) (lp : LogProcessor) (h : SessionsOpen lp) :
    SessionsOpen (registerClient c lp) := by
  constructor
  · rw [registerClient_clients]
    split
    · exact h.1
    · rename_i hc
      exact List.Nodup.append h.1 (List.nodup_singleton c) (by simpa using hc)
  · intro d hd
    by_cases hdc : d = c
    · subst hdc
      rw [registerClient_heap_same]
      exact ⟨rfl, rfl⟩
    · rw [registerClient_heap_other c d lp hdc]
      apply h.2
      rw [registerClient_clients] at hd
      split at hd
      · exact hd
      · rcases List.mem_append.mp hd with hd | hd
        · exact hd
        · exact absurd (List.mem_singleton.mp hd) hdc

/-- A successful upgrade: the session is registered, its fresh buffer
receives the welcome message, and both pumps are started. -/
theorem handleWebSocketConnection_accepts (lib : Lib) (now c : Nat) (lp : LogProcessor) :
    handleWebSocketConnection lib now true c lp = .ok (startPumps c
      ((registerClient c lp).setClient c
        { conn := Conn.fresh
          send := { buf := [lib.marshal (welcomeMsg lib now)], cap := 256, closed := false }
          writer := .notStarted
          reader := .notStarted })) := by
  simp [handleWebSocketConnection, sendWelcome, registerClient_heap_same, Chan.send, makeChan,
    bind, Except.bind, pure, Except.pure]

/-- `handleWebSocketConnection` never faults on a well-formed session set,
keeps it well formed, leaves the broadcast queue alone and closes no buffer. -/
theorem handleWebSocketConnection_keeps_open (lib : Lib) (now : Nat) (upgraded : Bool) (c : Nat)
    (lp : LogProcessor) (h : SessionsOpen lp) :
    ∃ lp', handleWebSocketConnection lib now upgraded c lp = .ok lp' ∧ SessionsOpen lp' ∧
      lp'.broadcast = lp.broadcast ∧ sendCloses lp'.trace = sendCloses lp.trace := by
  cases upgraded with
  | false =>
    refine ⟨lp.emit (.log .upgradeError), by simp [handleWebSocketConnection], h, rfl, ?_⟩
    simp [sendCloses_append, sendCloses]
  | true =>
    refine ⟨_, handleWebSocketConnection_accepts lib now c lp, ?_, ?_, ?_⟩
    · have hr := registerClient_keeps_open c lp h
      refine ⟨hr.1, ?_⟩
      intro d hd
      by_cases hdc : d = c
      · subst hdc
        simp [startPumps]
      · have hd' : d ∈ (registerClient c lp).clients := hd
        have := hr.2 d hd'
        simpa [startPumps, LogProcessor.setClient, Function.update_noteq hdc] using this
    · simp [startPumps, registerClient]
    · simp [startPumps, registerClient, sendCloses_append, sendCloses]

/-- The loop body of `broadcastToClients` closes no buffer. -/
theorem broadcastVisit_sendCloses (m : Bytes) (s s1 : LogProcessor) (c : Nat)
    (hv : broadcastVisit m s c = .ok s1) : sendCloses s1.trace = sendCloses s.trace := by
  unfold broadcastVisit at hv
  split at hv
  · cases hv
  · cases hv
    rfl
  · cases hv
    simp [sendCloses_append, sendCloses]

/-- The loop of `broadcastToClients` closes no buffer. -/
theorem foldlM_broadcastVisit_sendCloses (m : Bytes) :
    ∀ (l : List Nat) (s s' : LogProcessor), l.foldlM (broadcastVisit m) s = .ok s' →
      sendCloses s'.trace = sendCloses s.trace := by
  intro l
  induction l with
  | nil =>
    intro s s' h
    cases h
    rfl
  | cons c rest ih =>
    intro s s' h
    rw [List.foldlM_cons] at h
    cases hv : broadcastVisit m s c with
    | error p =>
      rw [hv] at h
      cases h
    | ok s1 =>
      rw [hv] at h
      exact (ih s1 s' h).trans (broadcastVisit_sendCloses m s s1 c hv)

/-- `broadcastToClients` closes no buffer. -/
theorem broadcastToClients_sendCloses (m : Bytes) (s s' : LogProcessor)
    (h : broadcastToClients m s = .ok s') : sendCloses s'.trace = sendCloses s.trace := by
  unfold broadcastToClients at h
  cases hf : List.foldlM (broadcastVisit m) ((s.emit .rlock).emit .mapRange) s.clients with
  | error p =>
    have h' : (List.foldlM (broadcastVisit m) ((s.emit .rlock).emit .mapRange) s.clients
        >>= fun lp2 => pure (lp2.emit .runlock)) = .ok s' := h
    rw [hf] at h'
    cases h'
  | ok s2 =>
    have h' : (List.foldlM (broadcastVisit m) ((s.emit .rlock).emit .mapRange) s.clients
        >>= fun lp2 => pure (lp2.emit .runlock)) = .ok s' := h
    rw [hf] at h'
    cases h'
    have := foldlM_broadcastVisit_sendCloses m _ _ _ hf
    simp [sendCloses_append, sendCloses] at this ⊢
    exact this

/-- The cleanup of `readPump` keeps the session set well formed. -/
theorem readPumpCleanup_keeps_open (c : Nat) (lp : LogProcessor) (h : SessionsOpen lp) :
    SessionsOpen (readPumpCleanup c lp) ∧
    (readPumpCleanup c lp).broadcast = lp.broadcast ∧
    sendCloses (readPumpCleanup c lp).trace = sendCloses lp.trace := by
  refine ⟨⟨?_, ?_⟩, rfl, ?_⟩
  · rw [readPumpCleanup_clients]
    exact h.1.sublist (List.filter_sublist _)
  · intro d hd
    rw [readPumpCleanup_clients] at hd
    have hd' : d ∈ lp.clients := (List.filter_sublist _).subset hd
    by_cases hdc : d = c
    · subst hdc
      rw [readPumpCleanup_heap]
      exact h.2 d hd'
    · have : (readPumpCleanup c lp).heap d = lp.heap d := by
        simp [readPumpCleanup, LogProcessor.setClient, Function.update_noteq hdc]
      rw [this]
      exact h.2 d hd'
  · simp [readPumpCleanup, sendCloses_append, sendCloses]

/-- `Shutdown` on a well-formed session set with an open broadcast queue
returns with an empty session set, and the buffers it has closed are those
of the sessions that were registered, once each. -/
theorem Shutdown_closes_registered (lp : LogProcessor) (h : SessionsOpen lp)
    (hb : lp.broadcast.closed = false) :
    ∃ lp', Shutdown lp = .ok lp' ∧ lp'.clients = [] ∧
      sendCloses lp'.trace = sendCloses lp.trace ++ lp.clients := by
  generalize hs3 : (match (({ lp.emit (.log .shuttingDown) with cancelled := true } :
      LogProcessor).emit .cancel).consumer with
    | some _ => ({ ({ lp.emit (.log .shuttingDown) with cancelled := true } :
        LogProcessor).emit .cancel with consumer := some { closed := true } } :
          LogProcessor).emit .consumerClose
    | none => ({ lp.emit (.log .shuttingDown) with cancelled := true } :
        LogProcessor).emit .cancel) = lp3
  have h3k : lp3.clients = lp.clients := by
    subst hs3; cases hq : lp.consumer <;> simp [hq]
  have h3h : lp3.heap = lp.heap := by
    subst hs3; cases hq : lp.consumer <;> simp [hq]
  have h3b : lp3.broadcast = lp.broadcast := by
    subst hs3; cases hq : lp.consumer <;> simp [hq]
  have h3t : sendCloses lp3.trace = sendCloses lp.trace := by
    subst hs3; cases hq : lp.consumer <;> simp [hq, sendCloses_append, sendCloses]
  obtain ⟨s5, hf, ht, _, _, _, hbq, _, _⟩ :=
    foldlM_shutdownVisit lp3.clients ((lp3.emit .lock).emit .mapRange)
      (by rw [h3k]; exact h.1)
      (by
        intro c hc
        rw [h3k] at hc
        simp only [emit_heap, h3h]
        exact (h.2 c hc).1)
  have hf' : List.foldlM shutdownVisit ((lp3.emit .lock).emit .mapRange) lp3.clients
      = .ok s5 := hf
  have hbc : s5.broadcast.close = .ok { lp.broadcast with closed := true } := by
    rw [hbq]
    simp [Chan.close, h3b, hb]
  refine ⟨((({ (({ s5 with clients := [] } : LogProcessor).emit .mapReset).emit .unlock with
      broadcast := { lp.broadcast with closed := true } } : LogProcessor).emit
        .broadcastClose).emit (.log .shutdownComplete)), ?_, rfl, ?_⟩
  · simp only [Shutdown]
    rw [hs3]
    simp only [emit_clients, bind, Except.bind, hf', emit_broadcast]
    rw [hbc]
    rfl
  · simp only [emit_trace, ht, sendCloses_append, sendCloses_shutdownEvents, h3t, h3k]
    simp [sendCloses]

/-- A lifecycle step other than `Shutdown` never faults on a well-formed
session set, keeps it well formed, leaves the broadcast queue alone and
closes no buffer. -/
theorem LifeStep_keeps_open (lib : Lib) (st : LifeStep) (s : LogProcessor)
    (hst : st ≠ .shutdown) (h : SessionsOpen s) :
    ∃ s1, st.apply lib s = .ok s1 ∧ SessionsOpen s1 ∧ s1.broadcast = s.broadcast ∧
      sendCloses s1.trace = sendCloses s.trace := by
  cases st with
  | register now upgraded c => exact handleWebSocketConnection_keeps_open lib now upgraded c s h
  | broadcast message =>
    obtain ⟨s1, hb, _, _, _, _, hbq, _⟩ := broadcastToClients_open message s h
    exact ⟨s1, hb, broadcastToClients_keeps_open message s s1 h hb, hbq,
      broadcastToClients_sendCloses message s s1 hb⟩
  | readerCleanup c =>
    obtain ⟨ho, hbq, ht⟩ := readPumpCleanup_keeps_open c s h
    exact ⟨readPumpCleanup c s, rfl, ho, hbq, ht⟩
  | shutdown => exact absurd rfl hst

/-- A run splits at any point into the run of its first part and the run of
the rest from the state reached. -/
theorem runLife_append (lib : Lib) : ∀ (pre post : List LifeStep) (s : LogProcessor),
    runLife lib (pre ++ post) s
      = (match runLife lib pre s with
        | .error p => .error p
        | .ok s1 => runLife lib post s1) := by
  intro pre
  induction pre with
  | nil =>
    intro post s
    rfl
  | cons st rest ih =>
    intro post s
    simp only [List.cons_append, runLife]
    cases st.apply lib s with
    | error p => rfl
    | ok s1 => exact ih post s1

/-- A lifecycle without `Shutdown` never faults from a well-formed session
set, keeps it well formed and closes no buffer. -/
theorem runLife_no_shutdown (lib : Lib) : ∀ (steps : List LifeStep) (s : LogProcessor),
    LifeStep.shutdown ∉ steps → SessionsOpen s →
    ∃ s', runLife lib steps s = .ok s' ∧ SessionsOpen s' ∧ s'.broadcast = s.broadcast ∧
      sendCloses s'.trace = sendCloses s.trace := by
  intro steps
  induction steps with
  | nil =>
    intro s _ h
    exact ⟨s, rfl, h, rfl, rfl⟩
  | cons st rest ih =>
    intro s hno h
    have hst : st ≠ .shutdown := fun he => hno (he ▸ List.mem_cons_self _ _)
    obtain ⟨s1, ha, h1, hb1, ht1⟩ := LifeStep_keeps_open lib st s hst h
    obtain ⟨s2, hr, h2, hb2, ht2⟩ := ih s1 (fun hin => hno (List.mem_cons_of_mem _ hin)) h1
    exact ⟨s2, by simp only [runLife, ha, hr], h2, hb2.trans hb1, ht2.trans ht1⟩

/-- A lifecycle with at most one `Shutdown`, from a well-formed session set
with an open broadcast queue and no buffer closed yet, never faults, keeps
the session set well formed and closes no buffer twice. -/
theorem runLife_open (lib : Lib) : ∀ (steps : List LifeStep) (s : LogProcessor),
    steps.count .shutdown ≤ 1 → SessionsOpen s → s.broadcast.closed = false →
    sendCloses s.trace = [] →
    ∃ s', runLife lib steps s = .ok s' ∧ SessionsOpen s' ∧ (sendCloses s'.trace).Nodup := by
  intro steps
  induction steps with
  | nil =>
    intro s _ h _ ht
    exact ⟨s, rfl, h, by rw [ht]; exact List.nodup_nil⟩
  | cons st rest ih =>
    intro s hcount h hb ht
    by_cases hst : st = .shutdown
    · subst hst
      have hrest : LifeStep.shutdown ∉ rest := by
        intro hin
        have := List.count_pos_iff.mpr hin
        simp only [List.count_cons_self] at hcount
        omega
      obtain ⟨s1, hs, hk, htr⟩ := Shutdown_closes_registered s h hb
      have h1 : SessionsOpen s1 := by
        refine ⟨by rw [hk]; exact List.nodup_nil, ?_⟩
        intro c hc
        rw [hk] at hc
        cases hc
      obtain ⟨s2, hr, h2, _, ht2⟩ := runLife_no_shutdown lib rest s1 hrest h1
      refine ⟨s2, ?_, h2, ?_⟩
      · have ha : LifeStep.apply lib s .shutdown = .ok s1 := hs
        simp only [runLife, ha, hr]
      · rw [ht2, htr, ht, List.nil_append]
        exact h.1
    · have hcount' : rest.count .shutdown ≤ 1 := by
        have hne : (st == LifeStep.shutdown) = false := by simpa using hst
        simpa [List.count_cons, hne] using hcount
      obtain ⟨s1, ha, h1, hb1, ht1⟩ := LifeStep_keeps_open lib st s hst h
      obtain ⟨s2, hr, h2, hn2⟩ := ih s1 hcount' h1 (by rw [hb1]; exact hb) (by rw [ht1]; exact ht)
      exact ⟨s2, by simp only [runLife, ha, hr], h2, hn2⟩

/-- C11. From the processor built by `NewLogProcessor`, every sequence of
lifecycle steps (calls of `handleWebSocketConnection`, welcome message
included, of `broadcastToClients`, of the cleanup of `readPump`, and of
`Shutdown`) with at most one `Shutdown` runs without fault: no send finds a
closed buffer and no closed channel is closed again. In the state it reaches,
and in every state it passes through, the registered sessions are distinct
and each has an open outbound buffer; and the trace records no outbound
buffer as closed twice. -/
theorem registered_buffers_stay_open (lib : Lib) (config : Config) (steps : List LifeStep)
    (h : steps.count .shutdown ≤ 1) :
    ∃ lp, runLife lib steps (NewLogProcessor config) = .ok lp ∧
      lp.clients.Nodup ∧
      (∀ c ∈ lp.clients, (lp.heap c).send.closed = false) ∧
      (sendCloses lp.trace).Nodup ∧
      (∀ pre post, steps = pre ++ post →
        ∃ mid, runLife lib pre (NewLogProcessor config) = .ok mid ∧
          (∀ c ∈ mid.clients, (mid.heap c).send.closed = false) ∧
          runLife lib post mid = .ok lp) := by
  have hinit : SessionsOpen (NewLogProcessor config) :=
    ⟨List.nodup_nil, fun c hc => by cases hc⟩
  obtain ⟨lp, hrun, hopen, hnd⟩ :=
    runLife_open lib steps (NewLogProcessor config) h hinit rfl rfl
  refine ⟨lp, hrun, hopen.1, fun c hc => (hopen.2 c hc).1, hnd, ?_⟩
  intro pre post hsplit
  have hpre : pre.count .shutdown ≤ 1 := by
    rw [hsplit, List.count_append] at h
    omega
  obtain ⟨mid, hmid, hmo, _⟩ := runLife_open lib pre (NewLogProcessor config) hpre hinit rfl rfl
  refine ⟨mid, hmid, fun c hc => (hmo.2 c hc).1, ?_⟩
  have := runLife_append lib pre post (NewLogProcessor config)
  rw [hmid, ← hsplit, hrun] at this
  exact this.symm

/-- C11 on the demonstration lifecycle: the run returns; the one session
left registered, accepted after the shutdown, has an open buffer holding its
welcome message, and the only buffer closed is that of session `1`, once. -/
theorem registered_buffers_stay_open_witness :
    demoLife.count .shutdown ≤ 1 ∧
    ∃ lp, runLife demoLib demoLife (NewLogProcessor demoConfig) = .ok lp ∧
      lp.clients = [2] ∧ (lp.heap 2).send.closed = false ∧ (lp.heap 2).send.buf = [[0]] ∧
      sendCloses lp.trace = [1] ∧ (sendCloses lp.trace).Nodup := by
  have hcount : demoLife.count .shutdown ≤ 1 := by decide
  refine ⟨hcount, ?_⟩
  obtain ⟨lp, hrun, _, _, hnd, _⟩ :=
    registered_buffers_stay_open demoLib demoConfig demoLife hcount
  have hval : (runLife demoLib demoLife (NewLogProcessor demoConfig)).toOption.map
      (fun lp => (lp.clients, (lp.heap 2).send.closed, (lp.heap 2).send.buf, sendCloses lp.trace))
      = some ([2], false, [[0]], [1]) := by decide
  rw [hrun] at hval
  simp only [Except.toOption, Option.map_some', Option.some.injEq, Prod.mk.injEq] at hval
  exact ⟨lp, hrun, hval.1, hval.2.1, hval.2.2.1, hval.2.2.2, hnd⟩

/-- The steps are whole calls. Inside `handleWebSocketConnection` the welcome
send comes after the lock is released: were `Shutdown` to run between the
registration of a session and its welcome send, the send would find the
buffer closed; and a second `Shutdown` would close the broadcast queue
again. -/
theorem lifecycle_faults_outside_steps :
    faultOf ((Shutdown (registerClient 0 (NewLogProcessor demoConfig))).bind
      (sendWelcome demoLib 1 0)) = some .sendOnClosedChannel ∧
    faultOf (runLife demoLib [.shutdown, .shutdown] (NewLogProcessor demoConfig))
      = some .closeOfClosedChannel := by
  refine ⟨by decide, by decide⟩

end LogHarbor
